import Mathlib

/-!
Verification of the TinyDB storage core against its specification.

The development shallowly embeds the relevant TinyDB sources:
  * `src/include/common/exception.h` (error kinds),
  * `src/include/storage/page/b_plus_tree_page.h` (`BPlusTreePage`),
  * `index_builder.cpp` (`IndexBuilder::Build`),
  * `src/include/storage/index/index.h` (`IndexMetadata`),
  * `src/include/type/value.h` (`IntegerParentType::DivideValue` / `ModuloValue`),
  * `buffer_pool_manager.cpp` (`BufferPoolManager`).
Collaborators whose implementation files are not part of the provided sources
(LRU replacer, disk manager, log manager, `Page`) are modelled from the
specification, as marked in their doc comments.
-/

/-- Error kinds, from `ExceptionType` in `common/exception.h` (the source's
`IO` kind is rendered `IO_ERROR` here). -/
inductive ExceptionType where
  | INVALID
  | OUT_OF_RANGE
  | CONVERSION
  | UNKNOWN_TYPE
  | DECIMAL
  | MISMATCH_TYPE
  | DIVIDE_BY_ZERO
  | INCOMPATIBLE_TYPE
  | OUT_OF_MEMORY
  | NOT_IMPLEMENTED
  | IO_ERROR
  | UNREACHABLE
  | LOGIC_ERROR
deriving DecidableEq, Repr

/-- Page kinds for B+Tree pages, from `IndexPageType` in `b_plus_tree_page.h`. -/
inductive IndexPageType where
  | INVALID_INDEX_PAGE
  | LEAF_PAGE
  | INTERNAL_PAGE
deriving DecidableEq, Repr

/-- Header fields shared by every B+Tree page, from `BPlusTreePage` in
`b_plus_tree_page.h` (`int size_`, `int max_size_`, `page_id_t parent_page_id_`,
`IndexPageType page_type_`). -/
structure BPlusTreePage where
  size_ : Int
  max_size_ : Int
  parent_page_id_ : Int
  page_type_ : IndexPageType
deriving DecidableEq, Repr

/-- `BPlusTreePage::IsLeafPage`. -/
def BPlusTreePage.IsLeafPage (p : BPlusTreePage) : Bool :=
  p.page_type_ = IndexPageType.LEAF_PAGE

/-- `BPlusTreePage::GetMinSize`: `max_size_ / 2` for leaves and
`(max_size_ + 1) / 2` for internal pages, with C++ `int` division
(truncation toward zero, `Int.tdiv`). -/
def BPlusTreePage.GetMinSize (p : BPlusTreePage) : Int :=
  if p.IsLeafPage then Int.tdiv p.max_size_ 2
  else Int.tdiv (p.max_size_ + 1) 2

/-- Index kinds, following the dispatch in `index_builder.cpp`. -/
inductive IndexType where
  | BPlusTreeType
  | HashTableType
deriving DecidableEq, Repr

/-- The part of the index metadata `IndexBuilder::Build` dispatches on. -/
structure IndexMetadataKey where
  index_type : IndexType
  /-- Modelled from the spec: the fixed key width in bytes stored in the index
  metadata (the `GetKeySize` accessor is declared outside the provided
  sources; per spec section 4.8 it is the metadata's key size). -/
  key_size : Nat
deriving DecidableEq, Repr

/-- `IndexBuilder::Build` from `index_builder.cpp`: for a B+Tree index it
switches on the key size, building a `BPlusTreeIndex` specialization of widths
4, 8, 16, 32 or 64 (represented here by the chosen width), and otherwise
throws `NOT_IMPLEMENTED`; non-B+Tree index types also throw
`NOT_IMPLEMENTED`. -/
def IndexBuilder.Build (metadata : IndexMetadataKey) : Except ExceptionType Nat :=
  match metadata.index_type with
  | IndexType.BPlusTreeType =>
    if metadata.key_size = 4 then Except.ok 4
    else if metadata.key_size = 8 then Except.ok 8
    else if metadata.key_size = 16 then Except.ok 16
    else if metadata.key_size = 32 then Except.ok 32
    else if metadata.key_size = 64 then Except.ok 64
    else Except.error ExceptionType.NOT_IMPLEMENTED
  | IndexType.HashTableType => Except.error ExceptionType.NOT_IMPLEMENTED

/-- The string fields of `IndexMetadata` in `storage/index/index.h`. -/
structure IndexMetadata where
  index_name_ : String
  table_name_ : String
deriving DecidableEq, Repr

/-- `IndexMetadata::GetTableName` as written in the source: the body is the
bare expression statement `table_name_;` with no `return`, so control falls
off the end of a value-returning function and no value is produced; this is
modelled as returning `none`. -/
def IndexMetadata.GetTableName (m : IndexMetadata) : Option String :=
  let _ := m.table_name_
  none

/-- Modelled from the spec: the intended behavior of
`IndexMetadata::GetTableName`; the design notes instruct to treat the accessor
as returning the stored table name. -/
def IndexMetadata.GetTableNameIntended (m : IndexMetadata) : Option String :=
  some m.table_name_

/-- A C++ signed integer operand as seen by the `IntegerParentType` arithmetic
templates: a bit width (8, 16, 32 or 64 for the concrete instantiations) and
the mathematical value obtained by `Value::GetAs`. -/
structure CppInt where
  bits : Nat
  val : Int
deriving DecidableEq, Repr

/-- `static_cast` of an integer to a signed type of `bits` bits: wrap modulo
`2 ^ bits` into the symmetric range. -/
def wrapCast (bits : Nat) (x : Int) : Int :=
  let m : Int := 2 ^ bits
  let r := x % m
  if r < m / 2 then r else r - m

/-- `IntegerParentType::DivideValue` from `type/value.h`: throws
`DIVIDE_BY_ZERO` when the right operand is zero; otherwise returns the
truncated quotient, cast to and tagged with the type of the wider operand
(the left operand's type when widths are equal). -/
def IntegerParentType.DivideValue (lhs rhs : CppInt) : Except ExceptionType CppInt :=
  if rhs.val = 0 then Except.error ExceptionType.DIVIDE_BY_ZERO
  else if rhs.bits ≤ lhs.bits then
    Except.ok ⟨lhs.bits, wrapCast lhs.bits (Int.tdiv lhs.val rhs.val)⟩
  else
    Except.ok ⟨rhs.bits, wrapCast rhs.bits (Int.tdiv lhs.val rhs.val)⟩

/-- `IntegerParentType::ModuloValue` from `type/value.h`: throws
`DIVIDE_BY_ZERO` when the right operand is zero; otherwise returns the C++
`%` remainder (truncated, `Int.tmod`), cast to and tagged with the type of
the wider operand. -/
def IntegerParentType.ModuloValue (lhs rhs : CppInt) : Except ExceptionType CppInt :=
  if rhs.val = 0 then Except.error ExceptionType.DIVIDE_BY_ZERO
  else if rhs.bits ≤ lhs.bits then
    Except.ok ⟨lhs.bits, wrapCast lhs.bits (Int.tmod lhs.val rhs.val)⟩
  else
    Except.ok ⟨rhs.bits, wrapCast rhs.bits (Int.tmod lhs.val rhs.val)⟩

/-- C7 (as stated) fails: on an internal page with `max_size_ = 4`,
`GetMinSize` returns `(4 + 1) / 2 = 2` under C++ integer division, while the
claimed ceiling of `(max_size + 1) / 2` is `3`. -/
theorem claim_C7_counterexample :
    (⟨0, 4, -1, IndexPageType.INTERNAL_PAGE⟩ : BPlusTreePage).GetMinSize ≠
      ⌈(((⟨0, 4, -1, IndexPageType.INTERNAL_PAGE⟩ : BPlusTreePage).max_size_ : ℚ) + 1) / 2⌉ := by
  intro h
  have hL : (⟨0, 4, -1, IndexPageType.INTERNAL_PAGE⟩ : BPlusTreePage).GetMinSize = 2 := by decide
  have hcast : (((⟨0, 4, -1, IndexPageType.INTERNAL_PAGE⟩ : BPlusTreePage).max_size_ : ℚ)) = 4 := by
    norm_num
  rw [hL, hcast] at h
  have hceil : (⌈((4 : ℚ) + 1) / 2⌉ : ℤ) = 3 := by
    rw [Int.ceil_eq_iff]
    norm_num
  rw [hceil] at h
  exact absurd h (by decide)

/-- C7 (amended): for nonnegative `max_size_`, `GetMinSize` returns the floor
of `max_size_ / 2` on a leaf page and the ceiling of `max_size_ / 2`
(computed by the source as `(max_size_ + 1) / 2` in truncating integer
division) on an internal page. -/
theorem claim_C7_amended (p : BPlusTreePage) (h : 0 ≤ p.max_size_) :
    (p.IsLeafPage = true → p.GetMinSize = ⌊(p.max_size_ : ℚ) / 2⌋) ∧
    (p.IsLeafPage = false → p.GetMinSize = ⌈(p.max_size_ : ℚ) / 2⌉) := by
  constructor <;> intro hl <;> simp only [BPlusTreePage.GetMinSize, hl, if_true, if_false,
    Bool.false_eq_true, ite_false, ite_true]
  · rw [Int.tdiv_eq_ediv h (by norm_num)]
    have hf := Rat.floor_intCast_div_natCast p.max_size_ 2
    push_cast at hf
    rw [hf]
  · rw [Int.tdiv_eq_ediv (by omega) (by norm_num)]
    have hc : (⌈(p.max_size_ : ℚ) / 2⌉ : ℤ) = -⌊-((p.max_size_ : ℚ) / 2)⌋ := by
      rw [Int.floor_neg, neg_neg]
    rw [hc, ← neg_div]
    have hf := Rat.floor_intCast_div_natCast (-p.max_size_) 2
    push_cast at hf
    rw [hf]
    omega

/-- Witness for the amended C7 at a concrete leaf page and a concrete internal
page with `max_size_ = 5`. -/
theorem claim_C7_amended_witness :
    (⟨0, 5, -1, IndexPageType.LEAF_PAGE⟩ : BPlusTreePage).GetMinSize = ⌊((5 : ℚ)) / 2⌋ ∧
    (⟨0, 5, -1, IndexPageType.INTERNAL_PAGE⟩ : BPlusTreePage).GetMinSize = ⌈((5 : ℚ)) / 2⌉ := by
  constructor
  · have h := (claim_C7_amended ⟨0, 5, -1, IndexPageType.LEAF_PAGE⟩ (by decide)).1 (by decide)
    simpa using h
  · have h := (claim_C7_amended ⟨0, 5, -1, IndexPageType.INTERNAL_PAGE⟩ (by decide)).2 (by decide)
    simpa using h

/-- C8: for B+Tree index metadata, `IndexBuilder::Build` yields the
specialization of width `key_size` exactly when the key size is 4, 8, 16, 32
or 64 bytes, and fails with `NOT_IMPLEMENTED` for every other key size. -/
theorem claim_C8 (metadata : IndexMetadataKey)
    (h : metadata.index_type = IndexType.BPlusTreeType) :
    (IndexBuilder.Build metadata = Except.ok metadata.key_size ↔
      (metadata.key_size = 4 ∨ metadata.key_size = 8 ∨ metadata.key_size = 16 ∨
        metadata.key_size = 32 ∨ metadata.key_size = 64)) ∧
    (¬ (metadata.key_size = 4 ∨ metadata.key_size = 8 ∨ metadata.key_size = 16 ∨
        metadata.key_size = 32 ∨ metadata.key_size = 64) →
      IndexBuilder.Build metadata = Except.error ExceptionType.NOT_IMPLEMENTED) := by
  obtain ⟨t, k⟩ := metadata
  simp only at h
  subst h
  simp only [IndexBuilder.Build]
  constructor
  · split_ifs with h4 h8 h16 h32 h64 <;> simp_all
  · intro hn
    split_ifs with h4 h8 h16 h32 h64 <;> simp_all

/-- Witness for C8 at key sizes 16 (supported) and 5 (unsupported). -/
theorem claim_C8_witness :
    IndexBuilder.Build ⟨IndexType.BPlusTreeType, 16⟩ = Except.ok 16 ∧
    IndexBuilder.Build ⟨IndexType.BPlusTreeType, 5⟩ =
      Except.error ExceptionType.NOT_IMPLEMENTED := by
  constructor
  · exact (claim_C8 ⟨IndexType.BPlusTreeType, 16⟩ rfl).1.mpr (by decide)
  · exact (claim_C8 ⟨IndexType.BPlusTreeType, 5⟩ rfl).2 (by decide)

/-- C9: the code contradicts the intended behavior. `GetTableName` as written
produces no value (the statement `table_name_;` lacks `return`), so at a
concrete metadata it differs from the spec-mandated accessor that returns the
stored table name. -/
theorem claim_C9 :
    IndexMetadata.GetTableName ⟨"pk_index", "students"⟩ ≠
      IndexMetadata.GetTableNameIntended ⟨"pk_index", "students"⟩ := by
  simp [IndexMetadata.GetTableName, IndexMetadata.GetTableNameIntended]

/-- C10: integer division and modulo are guarded. Both `DivideValue` and
`ModuloValue` raise `DIVIDE_BY_ZERO` exactly when the right operand is zero,
and for a nonzero divisor they return the truncated quotient (resp. C++ `%`
remainder), cast into the wider operand's type. -/
theorem claim_C10 (lhs rhs : CppInt) :
    (IntegerParentType.DivideValue lhs rhs =
        Except.error ExceptionType.DIVIDE_BY_ZERO ↔ rhs.val = 0) ∧
    (IntegerParentType.ModuloValue lhs rhs =
        Except.error ExceptionType.DIVIDE_BY_ZERO ↔ rhs.val = 0) ∧
    (rhs.val ≠ 0 →
      IntegerParentType.DivideValue lhs rhs =
        Except.ok ⟨max lhs.bits rhs.bits,
          wrapCast (max lhs.bits rhs.bits) (Int.tdiv lhs.val rhs.val)⟩ ∧
      IntegerParentType.ModuloValue lhs rhs =
        Except.ok ⟨max lhs.bits rhs.bits,
          wrapCast (max lhs.bits rhs.bits) (Int.tmod lhs.val rhs.val)⟩) := by
  refine ⟨?_, ?_, ?_⟩
  · unfold IntegerParentType.DivideValue
    split_ifs with h0 hw <;> simp [h0]
  · unfold IntegerParentType.ModuloValue
    split_ifs with h0 hw <;> simp [h0]
  · intro h0
    unfold IntegerParentType.DivideValue IntegerParentType.ModuloValue
    by_cases hw : rhs.bits ≤ lhs.bits
    · have hm : max lhs.bits rhs.bits = lhs.bits := by omega
      simp [h0, hw, hm]
    · have hm : max lhs.bits rhs.bits = rhs.bits := by omega
      simp [h0, hw, hm]

/-- Witness for C10: dividing a 32-bit 7 by a 16-bit 2 yields quotient 3 and
remainder 1 in the 32-bit type. -/
theorem claim_C10_witness :
    (⟨16, 2⟩ : CppInt).val ≠ 0 ∧
    IntegerParentType.DivideValue ⟨32, 7⟩ ⟨16, 2⟩ = Except.ok ⟨32, 3⟩ ∧
    IntegerParentType.ModuloValue ⟨32, 7⟩ ⟨16, 2⟩ = Except.ok ⟨32, 1⟩ := by
  have h := (claim_C10 ⟨32, 7⟩ ⟨16, 2⟩).2.2 (by decide)
  refine ⟨by decide, ?_, ?_⟩
  · rw [h.1]
    simp only [Except.ok.injEq]
    decide
  · rw [h.2]
    simp only [Except.ok.injEq]
    decide

/-- Modelled from the spec: a page's data buffer, as far as the buffer pool
inspects it — the header's LSN (spec section 4.4, read by `PageHeader::GetLSN`
in `FlushPageHelper`) plus an opaque abstraction of the remaining payload
bytes. A zero-filled buffer has LSN 0 and payload 0. -/
structure PageData where
  lsn : Nat
  payload : Nat
deriving DecidableEq, Repr

/-- The zero-filled page buffer produced by `Page::ZeroData`. -/
def zeroPageData : PageData := ⟨0, 0⟩

/-- Modelled from the spec: the in-memory `Page` object of a frame (spec
section 3) — page id, pin count, dirty bit and data buffer, as read and
written by `buffer_pool_manager.cpp`. -/
structure Page where
  page_id_ : Int
  pin_count_ : Nat
  is_dirty_ : Bool
  data_ : PageData
deriving DecidableEq, Repr

/-- A default-constructed `Page`: invalid page id, unpinned, clean, zeroed. -/
def defaultPage : Page := ⟨-1, 0, false, zeroPageData⟩

/-- Calls the buffer pool makes to the log manager and the disk manager's
write path; the trace of these calls is what the WAL-ordering property
constrains. -/
inductive Event where
  | logFlush (lsn : Nat) (force : Bool)
  | diskWrite (page_id : Int) (data : PageData)
deriving DecidableEq, Repr

/-- `std::unordered_map::find`: the value stored under `key`, if any. -/
def assocLookup {α : Type} (key : Int) : List (Int × α) → Option α
  | [] => none
  | (k, v) :: rest => if k = key then some v else assocLookup key rest

/-- `std::unordered_map::erase`: drop the entry stored under `key`. -/
def eraseKey {α : Type} (key : Int) : List (Int × α) → List (Int × α)
  | [] => []
  | kv :: rest => if kv.1 = key then eraseKey key rest else kv :: eraseKey key rest

/-- `map[key] = v`: overwrite the entry under `key`, or add one. -/
def assocInsert {α : Type} (key : Int) (v : α) (l : List (Int × α)) : List (Int × α) :=
  (key, v) :: eraseKey key l

/-- `deque::back` follows by `pop_back`: the last element and the rest. -/
def popBack (l : List Nat) : Option (Nat × List Nat) :=
  match l.reverse with
  | [] => none
  | x :: xs => some (x, xs.reverse)

/-- Modelled from the spec: `LRUReplacer::Pin` (spec section 4.2) removes the
frame from the eligible set; no-op when absent. The eligible set is kept as a
least-recently-unpinned-first list. -/
def rPin (fid : Nat) (r : List Nat) : List Nat :=
  r.filter (fun f => f ≠ fid)

/-- Modelled from the spec: `LRUReplacer::Unpin` adds the frame at the
most-recent end of the eligible set; idempotent. -/
def rUnpin (fid : Nat) (r : List Nat) : List Nat :=
  if fid ∈ r then r else r ++ [fid]

/-- Modelled from the spec: `LRUReplacer::Evict` removes and returns the
least-recently-unpinned eligible frame; fails when the set is empty. -/
def rEvict (r : List Nat) : Option (Nat × List Nat) :=
  match r with
  | [] => none
  | f :: rest => some (f, rest)

/-- Modelled from the spec: `LRUReplacer::Size`, the number of eligible
frames. -/
def rSize (r : List Nat) : Nat := r.length

/-- Modelled from the spec: the disk manager's state (spec section 4.1) — a
monotone page-id allocator, the stored page images, and the record of
deallocation notices. -/
structure DiskManager where
  next_page_id : Int
  store : List (Int × PageData)
  deallocated : List Int
deriving DecidableEq, Repr

/-- Modelled from the spec: `DiskManager::AllocatePage` returns monotonically
increasing page ids. -/
def DiskManager.allocatePage (d : DiskManager) : Int × DiskManager :=
  (d.next_page_id, { d with next_page_id := d.next_page_id + 1 })

/-- Modelled from the spec: `DiskManager::DeallocatePage` records that the
page id was handed back. -/
def DiskManager.deallocatePage (page_id : Int) (d : DiskManager) : DiskManager :=
  { d with deallocated := page_id :: d.deallocated }

/-- Modelled from the spec: `DiskManager::ReadPage` returns the stored image,
or a zero-filled buffer for a not-yet-written page (the buffer pool's callers
use `outbound_is_error = false`; the error path for `true` is an IO fault
outside the claims considered here). -/
def DiskManager.readPage (page_id : Int) (d : DiskManager) : PageData :=
  (assocLookup page_id d.store).getD zeroPageData

/-- Modelled from the spec: `DiskManager::WritePage` stores the page image. -/
def DiskManager.writePage (page_id : Int) (data : PageData) (d : DiskManager) : DiskManager :=
  { d with store := assocInsert page_id data d.store }

/-- The buffer pool manager's state, from the member variables of
`BufferPoolManager` in `buffer_pool_manager.cpp`: frame array, page table,
free list, replacer, disk manager, and whether a log manager is configured
(`log_manager_ != nullptr`); `trace` records the log-flush and disk-write
calls the pool has issued. -/
structure BPMState where
  pool_size : Nat
  pages : List Page
  page_table : List (Int × Nat)
  free_list : List Nat
  replacer : List Nat
  disk : DiskManager
  has_log : Bool
  trace : List Event
deriving DecidableEq, Repr

/-- The `BufferPoolManager` constructor: every frame starts on the free list
(`emplace_back` of frames 0 to `pool_size - 1`), the page table and replacer
start empty. -/
def initState (pool_size : Nat) (has_log : Bool) : BPMState :=
  { pool_size := pool_size
    pages := List.replicate pool_size defaultPage
    page_table := []
    free_list := List.range pool_size
    replacer := []
    disk := ⟨0, [], []⟩
    has_log := has_log
    trace := [] }

/-- `BufferPoolManager::FlushPageHelper`: when a log manager is configured,
force-flush the log up to the page's header LSN, then write the page to disk
and clear its dirty flag. -/
def flushPageHelper (s : BPMState) (frame_id : Nat) : BPMState :=
  let page := s.pages.getD frame_id defaultPage
  let evs := if s.has_log then [Event.logFlush page.data_.lsn true] else []
  { s with
    disk := DiskManager.writePage page.page_id_ page.data_ s.disk
    trace := s.trace ++ evs ++ [Event.diskWrite page.page_id_ page.data_]
    pages := s.pages.set frame_id { page with is_dirty_ := false } }

/-- `BufferPoolManager::FetchPage`: on a hit, pin the frame in the replacer
and increment its pin count; on a miss, obtain a frame from the free list
(back first) or by evicting the replacer's victim — flushing it first when
dirty and erasing its old page-table entry — then install the requested page
with `pin_count = 1`, `is_dirty = false` and the bytes read from disk.
Returns the serving frame id (standing for the returned `Page *`), or `none`
when the free list is empty and the replacer has no victim. -/
def fetchPage (s : BPMState) (page_id : Int) (outbound_is_error : Bool) :
    Option Nat × BPMState :=
  let _ := outbound_is_error
  match assocLookup page_id s.page_table with
  | some frame_id =>
    let page := s.pages.getD frame_id defaultPage
    (some frame_id,
      { s with
        replacer := rPin frame_id s.replacer
        pages := s.pages.set frame_id { page with pin_count_ := page.pin_count_ + 1 } })
  | none =>
    let slot : Option (Nat × BPMState) :=
      match popBack s.free_list with
      | some (frame_id, rest) => some (frame_id, { s with free_list := rest })
      | none =>
        match rEvict s.replacer with
        | none => none
        | some (frame_id, r) =>
          let s1 := { s with replacer := r }
          let victim := s1.pages.getD frame_id defaultPage
          let s2 := if victim.is_dirty_ then flushPageHelper s1 frame_id else s1
          some (frame_id, { s2 with page_table := eraseKey victim.page_id_ s2.page_table })
    match slot with
    | none => (none, s)
    | some (frame_id, s3) =>
      (some frame_id,
        { s3 with
          page_table := assocInsert page_id frame_id s3.page_table
          pages := s3.pages.set frame_id
            ⟨page_id, 1, false, DiskManager.readPage page_id s3.disk⟩ })

/-- `BufferPoolManager::UnpinPage`: fail when the page is not resident; OR
`is_dirty` into the frame's dirty flag; then fail when the pin count is
already zero; otherwise decrement it, handing the frame to the replacer when
it reaches zero. -/
def unpinPage (s : BPMState) (page_id : Int) (is_dirty : Bool) : Bool × BPMState :=
  match assocLookup page_id s.page_table with
  | none => (false, s)
  | some frame_id =>
    let page := s.pages.getD frame_id defaultPage
    let page1 := { page with is_dirty_ := page.is_dirty_ || is_dirty }
    let s1 := { s with pages := s.pages.set frame_id page1 }
    if page1.pin_count_ = 0 then (false, s1)
    else
      let page2 := { page1 with pin_count_ := page1.pin_count_ - 1 }
      let s2 := { s1 with pages := s1.pages.set frame_id page2 }
      if page2.pin_count_ = 0 then
        (true, { s2 with replacer := rUnpin frame_id s2.replacer })
      else (true, s2)

/-- `BufferPoolManager::FlushPage`: flush through `FlushPageHelper` when the
page is resident, else return false. -/
def flushPage (s : BPMState) (page_id : Int) : Bool × BPMState :=
  match assocLookup page_id s.page_table with
  | none => (false, s)
  | some frame_id => (true, flushPageHelper s frame_id)

/-- `BufferPoolManager::NewPage`: return null when the free list is empty and
the replacer holds no frame; otherwise allocate a fresh page id from the disk
manager, obtain a frame as in `FetchPage` (flushing a dirty victim first),
zero-fill it, set `pin_count = 1`, `is_dirty = false` and record the mapping.
Returns the allocated page id and serving frame id. -/
def newPage (s : BPMState) : Option (Int × Nat) × BPMState :=
  if s.free_list = [] ∧ rSize s.replacer = 0 then (none, s)
  else
    let alloc := DiskManager.allocatePage s.disk
    let page_id := alloc.1
    let s0 := { s with disk := alloc.2 }
    let slot : Option (Nat × BPMState) :=
      match popBack s0.free_list with
      | some (frame_id, rest) => some (frame_id, { s0 with free_list := rest })
      | none =>
        match rEvict s0.replacer with
        | none => none
        | some (frame_id, r) =>
          let s1 := { s0 with replacer := r }
          let victim := s1.pages.getD frame_id defaultPage
          let s2 := if victim.is_dirty_ then flushPageHelper s1 frame_id else s1
          some (frame_id, { s2 with page_table := eraseKey victim.page_id_ s2.page_table })
    match slot with
    | none => (none, s0)
    | some (frame_id, s3) =>
      (some (page_id, frame_id),
        { s3 with
          page_table := assocInsert page_id frame_id s3.page_table
          pages := s3.pages.set frame_id ⟨page_id, 1, false, zeroPageData⟩ })

/-- `BufferPoolManager::DeletePage`: unconditionally tell the disk manager
the page is deallocated; succeed trivially when not resident; fail with no
further change when the frame is still pinned; otherwise invalidate the
frame's page id, drop the page-table entry, push the frame onto the front of
the free list and remove it from the replacer. -/
def deletePage (s : BPMState) (page_id : Int) : Bool × BPMState :=
  let s0 := { s with disk := DiskManager.deallocatePage page_id s.disk }
  match assocLookup page_id s0.page_table with
  | none => (true, s0)
  | some frame_id =>
    let page := s0.pages.getD frame_id defaultPage
    if page.pin_count_ > 0 then (false, s0)
    else
      (true,
        { s0 with
          pages := s0.pages.set frame_id { page with page_id_ := -1 }
          page_table := eraseKey page_id s0.page_table
          free_list := frame_id :: s0.free_list
          replacer := rPin frame_id s0.replacer })

/-- `BufferPoolManager::FlushAllPages`: sweep the frames in index order and
flush each frame whose page id is still in the page table. -/
def flushAllPages (s : BPMState) : BPMState :=
  (List.range s.pool_size).foldl
    (fun acc i =>
      match assocLookup (acc.pages.getD i defaultPage).page_id_ acc.page_table with
      | none => acc
      | some _ => flushPageHelper acc i)
    s

/-- One invocation of a public buffer pool operation, with its arguments. -/
inductive Op where
  | fetch (page_id : Int) (outbound_is_error : Bool)
  | unpin (page_id : Int) (is_dirty : Bool)
  | newp
  | del (page_id : Int)
  | flushp (page_id : Int)
  | flushAll
deriving DecidableEq, Repr

/-- The state reached after one public operation (return values dropped). -/
def applyOp (s : BPMState) (op : Op) : BPMState :=
  match op with
  | Op.fetch pid b => (fetchPage s pid b).2
  | Op.unpin pid d => (unpinPage s pid d).2
  | Op.newp => (newPage s).2
  | Op.del pid => (deletePage s pid).2
  | Op.flushp pid => (flushPage s pid).2
  | Op.flushAll => flushAllPages s

/-- States reachable from a freshly constructed buffer pool by any sequence
of public operations with arbitrary arguments. -/
inductive Reach : BPMState → Prop where
  | init (pool_size : Nat) (has_log : Bool) : Reach (initState pool_size has_log)
  | step {s : BPMState} (op : Op) : Reach s → Reach (applyOp s op)

/-- Argument discipline for the amended C2: `FetchPage` (and `FlushPage`,
which cannot insert) may be called with any argument, but a fetched page id
must have been allocated by the disk manager already — `0 ≤ pid` and
`pid < next_page_id` for the monotone allocator. -/
def OpAllowed (s : BPMState) : Op → Prop
  | Op.fetch pid _ => 0 ≤ pid ∧ pid < s.disk.next_page_id
  | _ => True

/-- States reachable when callers fetch only already-allocated page ids. -/
inductive ReachA : BPMState → Prop where
  | init (pool_size : Nat) (has_log : Bool) : ReachA (initState pool_size has_log)
  | step {s : BPMState} (op : Op) : ReachA s → OpAllowed s op → ReachA (applyOp s op)

theorem assocLookup_mem {α : Type} {key : Int} {l : List (Int × α)} {v : α}
    (h : assocLookup key l = some v) : (key, v) ∈ l := by
  induction l with
  | nil => simp [assocLookup] at h
  | cons kv rest ih =>
    obtain ⟨k, w⟩ := kv
    simp only [assocLookup] at h
    split_ifs at h with hk
    · obtain rfl : w = v := by simpa using h
      subst hk
      exact List.mem_cons_self _ _
    · exact List.mem_cons_of_mem _ (ih h)

theorem assocLookup_eq_none_iff {α : Type} {key : Int} {l : List (Int × α)} :
    assocLookup key l = none ↔ key ∉ l.map Prod.fst := by
  induction l with
  | nil => simp [assocLookup]
  | cons kv rest ih =>
    obtain ⟨k, w⟩ := kv
    simp only [assocLookup, List.map_cons, List.mem_cons]
    split_ifs with hk
    · simp [hk]
    · simp only [ih]
      constructor
      · intro h hmem
        rcases hmem with h1 | h2
        · exact hk h1.symm
        · exact h h2
      · intro h
        exact fun h2 => h (Or.inr h2)

theorem assocLookup_of_mem {α : Type} {key : Int} {l : List (Int × α)} {v : α}
    (hnd : (l.map Prod.fst).Nodup) (h : (key, v) ∈ l) : assocLookup key l = some v := by
  induction l with
  | nil => simp at h
  | cons kv rest ih =>
    obtain ⟨k, w⟩ := kv
    simp only [List.map_cons, List.nodup_cons] at hnd
    rcases List.mem_cons.mp h with h1 | h2
    · simp only [Prod.mk.injEq] at h1
      obtain ⟨rfl, rfl⟩ := h1
      simp [assocLookup]
    · have hk : k ≠ key := fun hc =>
        hnd.1 (List.mem_map.mpr ⟨(key, v), h2, by simp [hc]⟩)
      simp only [assocLookup, if_neg hk]
      exact ih hnd.2 h2

theorem mem_eraseKey {α : Type} {key : Int} {l : List (Int × α)} {kv : Int × α} :
    kv ∈ eraseKey key l ↔ kv ∈ l ∧ kv.1 ≠ key := by
  induction l with
  | nil => simp [eraseKey]
  | cons kv0 rest ih =>
    simp only [eraseKey]
    split_ifs with hk
    · rw [ih]
      constructor
      · exact fun h => ⟨List.mem_cons_of_mem _ h.1, h.2⟩
      · rintro ⟨h1, hne⟩
        rcases List.mem_cons.mp h1 with rfl | h2
        · exact absurd hk hne
        · exact ⟨h2, hne⟩
    · constructor
      · intro h
        rcases List.mem_cons.mp h with rfl | h2
        · exact ⟨List.mem_cons_self _ _, hk⟩
        · exact ⟨List.mem_cons_of_mem _ (ih.mp h2).1, (ih.mp h2).2⟩
      · rintro ⟨h1, hne⟩
        rcases List.mem_cons.mp h1 with rfl | h2
        · exact List.mem_cons_self _ _
        · exact List.mem_cons_of_mem _ (ih.mpr ⟨h2, hne⟩)

theorem eraseKey_keys_sublist {α : Type} (key : Int) (l : List (Int × α)) :
    ((eraseKey key l).map Prod.fst).Sublist (l.map Prod.fst) := by
  induction l with
  | nil => simp [eraseKey]
  | cons kv rest ih =>
    simp only [eraseKey]
    split_ifs with hk
    · exact ih.trans (List.sublist_cons_self _ _)
    · simpa using ih.cons₂ kv.1

theorem assocLookup_eraseKey_self {α : Type} {key : Int} {l : List (Int × α)} :
    assocLookup key (eraseKey key l) = none := by
  induction l with
  | nil => rfl
  | cons kv rest ih =>
    simp only [eraseKey]
    split_ifs with hk
    · exact ih
    · simp only [assocLookup, if_neg hk]
      exact ih

theorem assocLookup_eraseKey_ne {α : Type} {k key : Int} {l : List (Int × α)}
    (h : k ≠ key) : assocLookup k (eraseKey key l) = assocLookup k l := by
  induction l with
  | nil => rfl
  | cons kv rest ih =>
    obtain ⟨k0, w⟩ := kv
    by_cases hk : k0 = key
    · subst hk
      simp only [eraseKey, eq_self_iff_true, if_true]
      rw [ih]
      simp only [assocLookup, if_neg (fun hc : k0 = k => h hc.symm)]
    · simp only [eraseKey, if_neg hk, assocLookup]
      split_ifs with hx
      · rfl
      · exact ih

theorem eraseKey_of_lookup_none {α : Type} {key : Int} {l : List (Int × α)}
    (h : assocLookup key l = none) : eraseKey key l = l := by
  induction l with
  | nil => rfl
  | cons kv rest ih =>
    obtain ⟨k0, w⟩ := kv
    simp only [assocLookup] at h
    by_cases hk : k0 = key
    · rw [if_pos hk] at h
      exact absurd h (by simp)
    · rw [if_neg hk] at h
      simp only [eraseKey, if_neg hk]
      rw [ih h]

theorem length_eraseKey_of_lookup {α : Type} {key : Int} {l : List (Int × α)} {v : α}
    (hnd : (l.map Prod.fst).Nodup) (h : assocLookup key l = some v) :
    (eraseKey key l).length + 1 = l.length := by
  induction l with
  | nil => simp [assocLookup] at h
  | cons kv rest ih =>
    obtain ⟨k0, w⟩ := kv
    simp only [List.map_cons, List.nodup_cons] at hnd
    simp only [assocLookup] at h
    split_ifs at h with hk
    · have hrest : assocLookup key rest = none := by
        rw [assocLookup_eq_none_iff]
        exact hk ▸ hnd.1
      simp [eraseKey, hk, eraseKey_of_lookup_none hrest]
    · simp only [eraseKey, if_neg hk, List.length_cons]
      rw [← ih hnd.2 h]

theorem keys_nodup_eraseKey {α : Type} {key : Int} {l : List (Int × α)}
    (h : (l.map Prod.fst).Nodup) : ((eraseKey key l).map Prod.fst).Nodup :=
  (eraseKey_keys_sublist key l).nodup h

theorem keys_nodup_assocInsert {α : Type} {key : Int} {v : α} {l : List (Int × α)}
    (h : (l.map Prod.fst).Nodup) : ((assocInsert key v l).map Prod.fst).Nodup := by
  simp only [assocInsert, List.map_cons, List.nodup_cons]
  refine ⟨?_, keys_nodup_eraseKey h⟩
  intro hmem
  obtain ⟨kv, hkv, hfst⟩ := List.mem_map.mp hmem
  exact absurd hfst (mem_eraseKey.mp hkv).2

theorem mem_assocInsert {α : Type} {key : Int} {v : α} {l : List (Int × α)} {kv : Int × α} :
    kv ∈ assocInsert key v l ↔ kv = (key, v) ∨ (kv ∈ l ∧ kv.1 ≠ key) := by
  simp [assocInsert, mem_eraseKey]

theorem assocLookup_assocInsert_self {α : Type} {key : Int} {v : α} {l : List (Int × α)} :
    assocLookup key (assocInsert key v l) = some v := by
  simp [assocInsert, assocLookup]

theorem assocLookup_assocInsert_ne {α : Type} {k key : Int} {v : α} {l : List (Int × α)}
    (h : k ≠ key) : assocLookup k (assocInsert key v l) = assocLookup k l := by
  simp only [assocInsert, assocLookup, if_neg (fun hc : key = k => h hc.symm)]
  exact assocLookup_eraseKey_ne h

theorem length_assocInsert_of_none {α : Type} {key : Int} {v : α} {l : List (Int × α)}
    (h : assocLookup key l = none) : (assocInsert key v l).length = l.length + 1 := by
  simp [assocInsert, eraseKey_of_lookup_none h]



theorem popBack_eq_none_iff {l : List Nat} : popBack l = none ↔ l = [] := by
  unfold popBack
  rcases hr : l.reverse with _ | ⟨x, xs⟩
  · simp [List.reverse_eq_nil_iff.mp hr]
  · simp only []
    constructor
    · intro h
      exact absurd h (by simp)
    · intro h
      subst h
      simp at hr

theorem popBack_spec {l rest : List Nat} {x : Nat} (h : popBack l = some (x, rest)) :
    l = rest ++ [x] := by
  unfold popBack at h
  rcases hr : l.reverse with _ | ⟨y, ys⟩
  · rw [hr] at h
    simp at h
  · rw [hr] at h
    simp only [Option.some.injEq, Prod.mk.injEq] at h
    obtain ⟨rfl, rfl⟩ := h
    have : l.reverse.reverse = (y :: ys).reverse := by rw [hr]
    simpa using this

theorem popBack_length {l rest : List Nat} {x : Nat} (h : popBack l = some (x, rest)) :
    rest.length + 1 = l.length := by
  rw [popBack_spec h]
  simp

theorem popBack_mem {l rest : List Nat} {x : Nat} (h : popBack l = some (x, rest)) :
    x ∈ l := by
  rw [popBack_spec h]
  simp

theorem popBack_subset {l rest : List Nat} {x f : Nat} (h : popBack l = some (x, rest))
    (hf : f ∈ rest) : f ∈ l := by
  rw [popBack_spec h]
  simp [hf]

theorem popBack_nodup {l rest : List Nat} {x : Nat} (h : popBack l = some (x, rest))
    (hnd : l.Nodup) : rest.Nodup ∧ x ∉ rest := by
  rw [popBack_spec h] at hnd
  have h1 := (List.nodup_append.mp hnd).1
  have h2 := (List.nodup_append.mp hnd).2.2
  exact ⟨h1, fun hin => h2 hin (List.mem_singleton_self x)⟩


theorem mem_rPin {f fid : Nat} {r : List Nat} : f ∈ rPin fid r ↔ f ∈ r ∧ f ≠ fid := by
  simp [rPin, List.mem_filter]

theorem nodup_rPin {fid : Nat} {r : List Nat} (h : r.Nodup) : (rPin fid r).Nodup :=
  List.Nodup.filter _ h

theorem mem_rUnpin {f fid : Nat} {r : List Nat} : f ∈ rUnpin fid r ↔ f ∈ r ∨ f = fid := by
  unfold rUnpin
  split_ifs with hin
  · constructor
    · exact fun h => Or.inl h
    · rintro (h | rfl)
      · exact h
      · exact hin
  · simp

theorem nodup_rUnpin {fid : Nat} {r : List Nat} (h : r.Nodup) : (rUnpin fid r).Nodup := by
  unfold rUnpin
  split_ifs with hin
  · exact h
  · simp [List.nodup_append, h, hin]

theorem rEvict_spec {r rest : List Nat} {f : Nat} (h : rEvict r = some (f, rest)) :
    r = f :: rest := by
  unfold rEvict at h
  match r, h with
  | f0 :: r0, h =>
    simp only [Option.some.injEq, Prod.mk.injEq] at h
    rw [h.1, h.2]

theorem rEvict_eq_none_iff {r : List Nat} : rEvict r = none ↔ r = [] := by
  unfold rEvict
  match r with
  | [] => simp
  | f :: rest => simp

theorem getD_set_cases (l : List Page) (i j : Nat) (a d : Page) :
    (l.set i a).getD j d = if i = j ∧ i < l.length then a else l.getD j d := by
  simp only [List.getD, List.getElem?_set]
  by_cases hij : i = j
  · subst hij
    by_cases hlen : i < l.length
    · simp [hlen]
    · have h1 : l[i]? = none := by
        rw [List.getElem?_eq_none_iff]
        omega
      have h2 : (l.set i a)[i]? = none := by
        rw [List.getElem?_eq_none_iff]
        simp
        omega
      simp [hlen, h1, h2]
  · simp [hij]

theorem getD_set_self {l : List Page} {i : Nat} {a d : Page} (h : i < l.length) :
    (l.set i a).getD i d = a := by
  rw [getD_set_cases]
  simp [h]

theorem getD_set_ne {l : List Page} {i j : Nat} {a d : Page} (h : i ≠ j) :
    (l.set i a).getD j d = l.getD j d := by
  rw [getD_set_cases]
  simp [h]

/-- The state invariant of the buffer pool that holds in every reachable
state, regardless of the arguments the public operations are called with:
frame-array length, well-formed replacer (no duplicates, in-range frames,
only unpinned frames), well-formed free list (no duplicates, in-range,
disjoint from the replacer), and a well-formed page table (unique keys,
in-range frame values, frames not on the free list, and each mapped frame's
in-memory page id agreeing with its key). -/
structure PoolInv (s : BPMState) : Prop where
  pages_len : s.pages.length = s.pool_size
  repl_nodup : s.replacer.Nodup
  repl_lt : ∀ f ∈ s.replacer, f < s.pool_size
  repl_pin : ∀ f ∈ s.replacer, (s.pages.getD f defaultPage).pin_count_ = 0
  free_nodup : s.free_list.Nodup
  free_lt : ∀ f ∈ s.free_list, f < s.pool_size
  free_repl : ∀ f ∈ s.free_list, f ∉ s.replacer
  keys_nodup : (s.page_table.map Prod.fst).Nodup
  pt_lt : ∀ kv ∈ s.page_table, kv.2 < s.pool_size
  pt_coh : ∀ kv ∈ s.page_table, (s.pages.getD kv.2 defaultPage).page_id_ = kv.1
  pt_free : ∀ kv ∈ s.page_table, kv.2 ∉ s.free_list

theorem poolInv_init (pool_size : Nat) (has_log : Bool) :
    PoolInv (initState pool_size has_log) := by
  refine ⟨?_, ?_, ?_, ?_, ?_, ?_, ?_, ?_, ?_, ?_, ?_⟩ <;>
    simp [initState, List.nodup_range, List.mem_range]

theorem poolInv_flushPageHelper {s : BPMState} (h : PoolInv s) (fid : Nat) :
    PoolInv (flushPageHelper s fid) := by
  obtain ⟨h1, h2, h3, h4, h5, h6, h7, h8, h9, h10, h11⟩ := h
  unfold flushPageHelper
  refine ⟨?_, h2, h3, ?_, h5, h6, h7, h8, h9, ?_, h11⟩
  · simpa using h1
  · intro f hf
    rw [getD_set_cases]
    split_ifs with hc
    · obtain ⟨he, _⟩ := hc
      rw [he]
      exact h4 f hf
    · exact h4 f hf
  · intro kv hkv
    rw [getD_set_cases]
    split_ifs with hc
    · obtain ⟨he, _⟩ := hc
      rw [he] at *
      exact h10 kv hkv
    · exact h10 kv hkv

theorem poolInv_pin_bump {s : BPMState} (h : PoolInv s) (fid : Nat) :
    PoolInv { s with replacer := rPin fid s.replacer,
                     pages := s.pages.set fid { s.pages.getD fid defaultPage with
                       pin_count_ := (s.pages.getD fid defaultPage).pin_count_ + 1 } } := by
  obtain ⟨h1, h2, h3, h4, h5, h6, h7, h8, h9, h10, h11⟩ := h
  refine ⟨?_, nodup_rPin h2, ?_, ?_, h5, h6, ?_, h8, h9, ?_, h11⟩
  · simpa using h1
  · intro f hf
    exact h3 f (mem_rPin.mp hf).1
  · intro f hf
    obtain ⟨hf1, hf2⟩ := mem_rPin.mp hf
    rw [getD_set_ne (fun hc => hf2 hc.symm)]
    exact h4 f hf1
  · intro f hf hmem
    exact h7 f hf (mem_rPin.mp hmem).1
  · intro kv hkv
    rw [getD_set_cases]
    split_ifs with hc
    · obtain ⟨he, _⟩ := hc
      rw [he] at *
      exact h10 kv hkv
    · exact h10 kv hkv

theorem poolInv_pop_free {s : BPMState} {fid : Nat} {rest : List Nat} (h : PoolInv s)
    (hp : popBack s.free_list = some (fid, rest)) :
    PoolInv { s with free_list := rest } := by
  obtain ⟨h1, h2, h3, h4, h5, h6, h7, h8, h9, h10, h11⟩ := h
  obtain ⟨hnd, _⟩ := popBack_nodup hp h5
  refine ⟨h1, h2, h3, h4, hnd, ?_, ?_, h8, h9, h10, ?_⟩
  · intro f hf
    exact h6 f (popBack_subset hp hf)
  · intro f hf
    exact h7 f (popBack_subset hp hf)
  · intro kv hkv hmem
    exact h11 kv hkv (popBack_subset hp hmem)

theorem poolInv_evict_tail {s : BPMState} {fid : Nat} {r : List Nat} (h : PoolInv s)
    (he : rEvict s.replacer = some (fid, r)) :
    PoolInv { s with replacer := r } := by
  obtain ⟨h1, h2, h3, h4, h5, h6, h7, h8, h9, h10, h11⟩ := h
  have hr := rEvict_spec he
  rw [hr] at h2 h3 h4 h7
  refine ⟨h1, h2.of_cons, ?_, ?_, h5, h6, ?_, h8, h9, h10, h11⟩
  · intro f hf
    exact h3 f (List.mem_cons_of_mem _ hf)
  · intro f hf
    exact h4 f (List.mem_cons_of_mem _ hf)
  · intro f hf hmem
    exact h7 f hf (List.mem_cons_of_mem _ hmem)

theorem poolInv_eraseKey_pt {t : BPMState} (h : PoolInv t) (k : Int) :
    PoolInv { t with page_table := eraseKey k t.page_table } := by
  obtain ⟨h1, h2, h3, h4, h5, h6, h7, h8, h9, h10, h11⟩ := h
  refine ⟨h1, h2, h3, h4, h5, h6, h7, keys_nodup_eraseKey h8, ?_, ?_, ?_⟩
  · intro kv hkv
    exact h9 kv (mem_eraseKey.mp hkv).1
  · intro kv hkv
    exact h10 kv (mem_eraseKey.mp hkv).1
  · intro kv hkv
    exact h11 kv (mem_eraseKey.mp hkv).1

theorem poolInv_install {t : BPMState} (h : PoolInv t) {pid : Int} {fid : Nat} (p : Page)
    (hlt : fid < t.pool_size) (hfree : fid ∉ t.free_list) (hrepl : fid ∉ t.replacer)
    (hpt : ∀ kv ∈ t.page_table, kv.2 ≠ fid) (hpid : p.page_id_ = pid) :
    PoolInv { t with page_table := assocInsert pid fid t.page_table,
                     pages := t.pages.set fid p } := by
  obtain ⟨h1, h2, h3, h4, h5, h6, h7, h8, h9, h10, h11⟩ := h
  refine ⟨?_, h2, h3, ?_, h5, h6, h7, keys_nodup_assocInsert h8, ?_, ?_, ?_⟩
  · simpa using h1
  · intro f hf
    have hne : fid ≠ f := fun hc => hrepl (by rw [hc]; exact hf)
    rw [getD_set_ne hne]
    exact h4 f hf
  · intro kv hkv
    rcases mem_assocInsert.mp hkv with rfl | ⟨hmem, _⟩
    · exact hlt
    · exact h9 kv hmem
  · intro kv hkv
    rcases mem_assocInsert.mp hkv with rfl | ⟨hmem, _⟩
    · rw [getD_set_self (h1 ▸ hlt)]
      exact hpid
    · rw [getD_set_ne (fun hc => hpt kv hmem hc.symm)]
      exact h10 kv hmem
  · intro kv hkv
    rcases mem_assocInsert.mp hkv with rfl | ⟨hmem, _⟩
    · exact hfree
    · exact h11 kv hmem

theorem poolInv_set_disk {s : BPMState} (h : PoolInv s) (d : DiskManager) :
    PoolInv { s with disk := d } := by
  obtain ⟨h1, h2, h3, h4, h5, h6, h7, h8, h9, h10, h11⟩ := h
  exact ⟨h1, h2, h3, h4, h5, h6, h7, h8, h9, h10, h11⟩

theorem poolInv_fetchPage {s : BPMState} (h : PoolInv s) (pid : Int) (b : Bool) :
    PoolInv (fetchPage s pid b).2 := by
  unfold fetchPage
  cases hl : assocLookup pid s.page_table with
  | some fid =>
    simp only [hl]
    exact poolInv_pin_bump h fid
  | none =>
    simp only [hl]
    cases hp : popBack s.free_list with
    | some pr =>
      obtain ⟨fid, rest⟩ := pr
      simp only [hp]
      refine poolInv_install (poolInv_pop_free h hp) _
        (h.free_lt fid (popBack_mem hp))
        ((popBack_nodup hp h.free_nodup).2)
        (h.free_repl fid (popBack_mem hp))
        (fun kv hkv hc => h.pt_free kv hkv (hc ▸ popBack_mem hp)) rfl
    | none =>
      simp only [hp]
      cases he : rEvict s.replacer with
      | none =>
        simp only [he]
        exact h
      | some pr =>
        obtain ⟨fid, r⟩ := pr
        simp only [he]
        have hmem : fid ∈ s.replacer := by
          rw [rEvict_spec he]
          exact List.mem_cons_self _ _
        have hlt : fid < s.pool_size := h.repl_lt fid hmem
        have hnotfree : fid ∉ s.free_list := fun hf => h.free_repl fid hf hmem
        have hnr : fid ∉ r := by
          have := rEvict_spec he ▸ h.repl_nodup
          exact (List.nodup_cons.mp this).1
        have hpt : ∀ kv ∈ eraseKey (s.pages.getD fid defaultPage).page_id_ s.page_table,
            kv.2 ≠ fid := by
          intro kv hkv hc
          obtain ⟨hkmem, hkne⟩ := mem_eraseKey.mp hkv
          exact hkne (hc ▸ h.pt_coh kv hkmem).symm
        by_cases hd : (s.pages.getD fid defaultPage).is_dirty_ <;>
          simp only [hd, if_true, if_false, Bool.false_eq_true, ite_true, ite_false]
        · exact poolInv_install
            (poolInv_eraseKey_pt (poolInv_flushPageHelper (poolInv_evict_tail h he) fid) _)
            _ hlt hnotfree hnr hpt rfl
        · exact poolInv_install
            (poolInv_eraseKey_pt (poolInv_evict_tail h he) _)
            _ hlt hnotfree hnr hpt rfl

theorem poolInv_unpinPage {s : BPMState} (h : PoolInv s) (pid : Int) (d : Bool) :
    PoolInv (unpinPage s pid d).2 := by
  unfold unpinPage
  cases hl : assocLookup pid s.page_table with
  | none =>
    simp only [hl]
    exact h
  | some fid =>
    simp only [hl]
    have hkv : (pid, fid) ∈ s.page_table := assocLookup_mem hl
    have hflt : fid < s.pool_size := h.pt_lt (pid, fid) hkv
    have hplen : fid < s.pages.length := h.pages_len ▸ hflt
    have hnotfree : fid ∉ s.free_list := h.pt_free (pid, fid) hkv
    obtain ⟨h1, h2, h3, h4, h5, h6, h7, h8, h9, h10, h11⟩ := h
    split_ifs with hp0 hp1
    · -- pin count already zero: only the dirty bit changed
      refine ⟨by simpa using h1, h2, h3, ?_, h5, h6, h7, h8, h9, ?_, h11⟩
      · intro f hf
        rw [getD_set_cases]
        split_ifs with hc
        · obtain ⟨he, _⟩ := hc
          rw [he]
          exact h4 f hf
        · exact h4 f hf
      · intro kv hkv2
        rw [getD_set_cases]
        split_ifs with hc
        · obtain ⟨he, _⟩ := hc
          rw [he]
          exact h10 kv hkv2
        · exact h10 kv hkv2
    · -- pin count reaches zero: frame handed to the replacer
      rw [List.set_set]
      refine ⟨by simpa using h1, nodup_rUnpin h2, ?_, ?_, h5, h6, ?_, h8, h9, ?_, h11⟩
      · intro f hf
        rcases mem_rUnpin.mp hf with hf1 | rfl
        · exact h3 f hf1
        · exact hflt
      · intro f hf
        by_cases hc : f = fid
        · subst hc
          rw [getD_set_self hplen]
          exact hp1
        · rcases mem_rUnpin.mp hf with hf1 | he
          · rw [getD_set_ne (fun he => hc he.symm)]
            exact h4 f hf1
          · exact absurd he hc
      · intro f hf hmem
        rcases mem_rUnpin.mp hmem with hm1 | rfl
        · exact h7 f hf hm1
        · exact hnotfree hf
      · intro kv hkv2
        rw [getD_set_cases]
        split_ifs with hc1
        · obtain ⟨he, _⟩ := hc1
          rw [he]
          exact h10 kv hkv2
        · exact h10 kv hkv2
    · -- pin count decremented but still positive
      rw [List.set_set]
      refine ⟨by simpa using h1, h2, h3, ?_, h5, h6, h7, h8, h9, ?_, h11⟩
      · intro f hf
        by_cases hc : f = fid
        · subst hc
          exact absurd (h4 f hf) hp0
        · rw [getD_set_ne (fun he => hc he.symm)]
          exact h4 f hf
      · intro kv hkv2
        rw [getD_set_cases]
        split_ifs with hc1
        · obtain ⟨he, _⟩ := hc1
          rw [he]
          exact h10 kv hkv2
        · exact h10 kv hkv2

theorem poolInv_flushPage {s : BPMState} (h : PoolInv s) (pid : Int) :
    PoolInv (flushPage s pid).2 := by
  unfold flushPage
  cases hl : assocLookup pid s.page_table with
  | none =>
    simp only [hl]
    exact h
  | some fid =>
    simp only [hl]
    exact poolInv_flushPageHelper h fid

theorem poolInv_newPage {s : BPMState} (h : PoolInv s) : PoolInv (newPage s).2 := by
  unfold newPage
  split_ifs with hempty
  · exact h
  · have h0 : PoolInv { s with disk := (DiskManager.allocatePage s.disk).2 } :=
      poolInv_set_disk h _
    cases hp : popBack s.free_list with
    | some pr =>
      obtain ⟨fid, rest⟩ := pr
      simp only [hp]
      refine poolInv_install (poolInv_pop_free h0 hp) _
        (h.free_lt fid (popBack_mem hp))
        ((popBack_nodup hp h.free_nodup).2)
        (h.free_repl fid (popBack_mem hp))
        (fun kv hkv hc => h.pt_free kv hkv (hc ▸ popBack_mem hp)) rfl
    | none =>
      simp only [hp]
      cases he : rEvict s.replacer with
      | none =>
        simp only [he]
        exact h0
      | some pr =>
        obtain ⟨fid, r⟩ := pr
        simp only [he]
        have hmem : fid ∈ s.replacer := by
          rw [rEvict_spec he]
          exact List.mem_cons_self _ _
        have hlt : fid < s.pool_size := h.repl_lt fid hmem
        have hnotfree : fid ∉ s.free_list := fun hf => h.free_repl fid hf hmem
        have hnr : fid ∉ r := by
          have := rEvict_spec he ▸ h.repl_nodup
          exact (List.nodup_cons.mp this).1
        have hpt : ∀ kv ∈ eraseKey (s.pages.getD fid defaultPage).page_id_ s.page_table,
            kv.2 ≠ fid := by
          intro kv hkv hc
          obtain ⟨hkmem, hkne⟩ := mem_eraseKey.mp hkv
          exact hkne (hc ▸ h.pt_coh kv hkmem).symm
        by_cases hd : (s.pages.getD fid defaultPage).is_dirty_ <;>
          simp only [hd, if_true, if_false, Bool.false_eq_true, ite_true, ite_false]
        · exact poolInv_install
            (poolInv_eraseKey_pt (poolInv_flushPageHelper (poolInv_evict_tail h0 he) fid) _)
            _ hlt hnotfree hnr hpt rfl
        · exact poolInv_install
            (poolInv_eraseKey_pt (poolInv_evict_tail h0 he) _)
            _ hlt hnotfree hnr hpt rfl

theorem poolInv_deletePage {s : BPMState} (h : PoolInv s) (pid : Int) :
    PoolInv (deletePage s pid).2 := by
  unfold deletePage
  have h0 : PoolInv { s with disk := DiskManager.deallocatePage pid s.disk } :=
    poolInv_set_disk h _
  cases hl : assocLookup pid s.page_table with
  | none =>
    simp only [hl]
    exact h0
  | some fid =>
    simp only [hl]
    have hkv : (pid, fid) ∈ s.page_table := assocLookup_mem hl
    have hflt : fid < s.pool_size := h.pt_lt (pid, fid) hkv
    have hplen : fid < s.pages.length := h.pages_len ▸ hflt
    have hnotfree : fid ∉ s.free_list := h.pt_free (pid, fid) hkv
    obtain ⟨h1, h2, h3, h4, h5, h6, h7, h8, h9, h10, h11⟩ := h
    split_ifs with hpin
    · exact h0
    · refine ⟨by simpa using h1, nodup_rPin h2, ?_, ?_, ?_, ?_, ?_,
        keys_nodup_eraseKey h8, ?_, ?_, ?_⟩
      · intro f hf
        exact h3 f (mem_rPin.mp hf).1
      · intro f hf
        obtain ⟨hf1, hf2⟩ := mem_rPin.mp hf
        rw [getD_set_ne (fun he => hf2 he.symm)]
        exact h4 f hf1
      · exact List.Nodup.cons hnotfree h5
      · intro f hf
        rcases List.mem_cons.mp hf with rfl | hf2
        · exact hflt
        · exact h6 f hf2
      · intro f hf hmem
        obtain ⟨hm1, hm2⟩ := mem_rPin.mp hmem
        rcases List.mem_cons.mp hf with rfl | hf2
        · exact hm2 rfl
        · exact h7 f hf2 hm1
      · intro kv hkv2
        exact h9 kv (mem_eraseKey.mp hkv2).1
      · intro kv hkv2
        obtain ⟨hkmem, hkne⟩ := mem_eraseKey.mp hkv2
        have hne : kv.2 ≠ fid := by
          intro hc
          apply hkne
          have e1 := h10 kv hkmem
          have e2 := h10 (pid, fid) hkv
          rw [hc] at e1
          exact e1.symm.trans e2
        rw [getD_set_ne (fun he => hne he.symm)]
        exact h10 kv hkmem
      · intro kv hkv2 hmem
        obtain ⟨hkmem, hkne⟩ := mem_eraseKey.mp hkv2
        have hne : kv.2 ≠ fid := by
          intro hc
          apply hkne
          have e1 := h10 kv hkmem
          have e2 := h10 (pid, fid) hkv
          rw [hc] at e1
          exact e1.symm.trans e2
        rcases List.mem_cons.mp hmem with he | hf2
        · exact hne he
        · exact h11 kv hkmem hf2

theorem poolInv_flushAllPages {s : BPMState} (h : PoolInv s) : PoolInv (flushAllPages s) := by
  unfold flushAllPages
  generalize List.range s.pool_size = l
  induction l generalizing s with
  | nil => exact h
  | cons i rest ih =>
    simp only [List.foldl_cons]
    apply ih
    cases hl : assocLookup ((s.pages.getD i defaultPage).page_id_) s.page_table with
    | none =>
      simp only [hl]
      exact h
    | some fid =>
      simp only [hl]
      exact poolInv_flushPageHelper h i

theorem poolInv_applyOp {s : BPMState} (h : PoolInv s) (op : Op) :
    PoolInv (applyOp s op) := by
  cases op with
  | fetch pid b => exact poolInv_fetchPage h pid b
  | unpin pid d => exact poolInv_unpinPage h pid d
  | newp => exact poolInv_newPage h
  | del pid => exact poolInv_deletePage h pid
  | flushp pid => exact poolInv_flushPage h pid
  | flushAll => exact poolInv_flushAllPages h

theorem reach_poolInv {s : BPMState} (h : Reach s) : PoolInv s := by
  induction h with
  | init n b => exact poolInv_init n b
  | step op hr ih => exact poolInv_applyOp ih op

theorem assocLookup_eraseKey_none {α : Type} {k key : Int} {l : List (Int × α)}
    (h : assocLookup k l = none) : assocLookup k (eraseKey key l) = none := by
  by_cases hk : k = key
  · subst hk
    exact assocLookup_eraseKey_self
  · rw [assocLookup_eraseKey_ne hk]
    exact h

/-- The strengthened invariant that holds on every state reachable under the
argument discipline of `OpAllowed`: besides `PoolInv`, every replacer frame's
in-memory page id is still its page-table key, the free list and page table
together account for exactly `pool_size` frames, and every resident page id
was previously produced by the disk manager's allocator. -/
structure PoolInvA (s : BPMState) : Prop where
  base : PoolInv s
  repl_pt : ∀ f ∈ s.replacer,
    assocLookup (s.pages.getD f defaultPage).page_id_ s.page_table = some f
  card : s.free_list.length + s.page_table.length = s.pool_size
  pid_lt : ∀ kv ∈ s.page_table, kv.1 < s.disk.next_page_id

theorem poolInvA_init (pool_size : Nat) (has_log : Bool) :
    PoolInvA (initState pool_size has_log) := by
  refine ⟨poolInv_init pool_size has_log, ?_, ?_, ?_⟩ <;> simp [initState]

theorem flushPageHelper_pool_size (s : BPMState) (fid : Nat) :
    (flushPageHelper s fid).pool_size = s.pool_size := rfl

theorem flushPageHelper_page_table (s : BPMState) (fid : Nat) :
    (flushPageHelper s fid).page_table = s.page_table := rfl

theorem flushPageHelper_free_list (s : BPMState) (fid : Nat) :
    (flushPageHelper s fid).free_list = s.free_list := rfl

theorem flushPageHelper_replacer (s : BPMState) (fid : Nat) :
    (flushPageHelper s fid).replacer = s.replacer := rfl

theorem flushPageHelper_has_log (s : BPMState) (fid : Nat) :
    (flushPageHelper s fid).has_log = s.has_log := rfl

theorem flushPageHelper_pages (s : BPMState) (fid : Nat) :
    (flushPageHelper s fid).pages =
      s.pages.set fid { s.pages.getD fid defaultPage with is_dirty_ := false } := rfl

theorem writePage_next_page_id (k : Int) (d : PageData) (dm : DiskManager) :
    (DiskManager.writePage k d dm).next_page_id = dm.next_page_id := rfl

theorem flushPageHelper_next_page_id (s : BPMState) (fid : Nat) :
    (flushPageHelper s fid).disk.next_page_id = s.disk.next_page_id := rfl

theorem poolInvA_fetchPage {s : BPMState} (h : PoolInvA s) {pid : Int} (b : Bool)
    (hpid : pid < s.disk.next_page_id) : PoolInvA (fetchPage s pid b).2 := by
  unfold fetchPage
  cases hl : assocLookup pid s.page_table with
  | some fid =>
    simp only [hl]
    refine ⟨poolInv_pin_bump h.base fid, ?_, h.card, h.pid_lt⟩
    intro f hf
    obtain ⟨hf1, hf2⟩ := mem_rPin.mp hf
    rw [getD_set_ne (fun he => hf2 he.symm)]
    exact h.repl_pt f hf1
  | none =>
    simp only [hl]
    cases hp : popBack s.free_list with
    | some pr =>
      obtain ⟨fid, rest⟩ := pr
      simp only [hp]
      refine ⟨poolInv_install (poolInv_pop_free h.base hp) _
        (h.base.free_lt fid (popBack_mem hp))
        ((popBack_nodup hp h.base.free_nodup).2)
        (h.base.free_repl fid (popBack_mem hp))
        (fun kv hkv hc => h.base.pt_free kv hkv (hc ▸ popBack_mem hp)) rfl, ?_, ?_, ?_⟩
      · simp only []
        intro f hf
        have hne : f ≠ fid := fun hc =>
          h.base.free_repl fid (popBack_mem hp) (hc ▸ hf)
        rw [getD_set_ne (fun he => hne he.symm)]
        have hkey : (s.pages.getD f defaultPage).page_id_ ≠ pid := by
          intro hc
          have h2 := h.repl_pt f hf
          rw [hc, hl] at h2
          exact Option.noConfusion h2
        rw [assocLookup_assocInsert_ne hkey]
        exact h.repl_pt f hf
      · simp only []
        rw [length_assocInsert_of_none (v := fid) hl]
        have e1 := popBack_length hp
        have e3 := h.card
        omega
      · simp only []
        intro kv hkv
        rcases mem_assocInsert.mp hkv with rfl | ⟨hmem, _⟩
        · exact hpid
        · exact h.pid_lt kv hmem
    | none =>
      simp only [hp]
      cases he : rEvict s.replacer with
      | none =>
        simp only [he]
        exact h
      | some pr =>
        obtain ⟨fid, r⟩ := pr
        simp only [he]
        have hmem : fid ∈ s.replacer := by
          rw [rEvict_spec he]
          exact List.mem_cons_self _ _
        have hlt : fid < s.pool_size := h.base.repl_lt fid hmem
        have hnotfree : fid ∉ s.free_list := fun hf => h.base.free_repl fid hf hmem
        have hnr : fid ∉ r := by
          have := rEvict_spec he ▸ h.base.repl_nodup
          exact (List.nodup_cons.mp this).1
        have hpt : ∀ kv ∈ eraseKey (s.pages.getD fid defaultPage).page_id_ s.page_table,
            kv.2 ≠ fid := by
          intro kv hkv hc
          obtain ⟨hkmem, hkne⟩ := mem_eraseKey.mp hkv
          exact hkne (hc ▸ h.base.pt_coh kv hkmem).symm
        have hvic := h.repl_pt fid hmem
        have hcard : (assocInsert pid fid
            (eraseKey (s.pages.getD fid defaultPage).page_id_ s.page_table)).length =
            s.page_table.length := by
          have e1 := length_eraseKey_of_lookup h.base.keys_nodup hvic
          have e2 := length_assocInsert_of_none (v := fid)
            (@assocLookup_eraseKey_none Nat pid ((s.pages.getD fid defaultPage).page_id_)
              s.page_table hl)
          omega
        have hrepl_pt : ∀ f ∈ r,
            assocLookup ((s.pages.getD f defaultPage).page_id_)
              (assocInsert pid fid
                (eraseKey (s.pages.getD fid defaultPage).page_id_ s.page_table)) =
              some f := by
          intro f hf
          have hfr : f ∈ s.replacer := by
            rw [rEvict_spec he]
            exact List.mem_cons_of_mem _ hf
          have hne_fid : f ≠ fid := fun hc => hnr (hc ▸ hf)
          have hk1 : (s.pages.getD f defaultPage).page_id_ ≠ pid := by
            intro hc
            have h2 := h.repl_pt f hfr
            rw [hc, hl] at h2
            exact Option.noConfusion h2
          have hk2 : (s.pages.getD f defaultPage).page_id_ ≠
              (s.pages.getD fid defaultPage).page_id_ := by
            intro hc
            have e1 := h.repl_pt f hfr
            rw [hc, hvic] at e1
            have : fid = f := by simpa using e1
            exact hne_fid this.symm
          rw [assocLookup_assocInsert_ne hk1, assocLookup_eraseKey_ne hk2]
          exact h.repl_pt f hfr
        by_cases hd : (s.pages.getD fid defaultPage).is_dirty_ <;>
          simp only [hd, if_true, if_false, Bool.false_eq_true, ite_true, ite_false]
        · refine ⟨poolInv_install
            (poolInv_eraseKey_pt (poolInv_flushPageHelper (poolInv_evict_tail h.base he) fid) _)
            _ hlt hnotfree hnr hpt rfl, ?_, ?_, ?_⟩
          · simp only [flushPageHelper_pages, flushPageHelper_page_table,
              flushPageHelper_replacer]
            intro f hf
            have hne_fid : f ≠ fid := fun hc => hnr (hc ▸ hf)
            rw [List.set_set, getD_set_ne (fun he2 => hne_fid he2.symm)]
            exact hrepl_pt f hf
          · simp only [flushPageHelper_free_list, flushPageHelper_page_table,
              flushPageHelper_pool_size]
            rw [hcard]
            exact h.card
          · simp only [flushPageHelper_page_table, flushPageHelper_next_page_id]
            intro kv hkv
            rcases mem_assocInsert.mp hkv with rfl | ⟨hmem2, _⟩
            · exact hpid
            · exact h.pid_lt kv (mem_eraseKey.mp hmem2).1
        · refine ⟨poolInv_install
            (poolInv_eraseKey_pt (poolInv_evict_tail h.base he) _)
            _ hlt hnotfree hnr hpt rfl, ?_, ?_, ?_⟩
          · simp only []
            intro f hf
            have hne_fid : f ≠ fid := fun hc => hnr (hc ▸ hf)
            rw [getD_set_ne (fun he2 => hne_fid he2.symm)]
            exact hrepl_pt f hf
          · simp only []
            rw [hcard]
            exact h.card
          · simp only []
            intro kv hkv
            rcases mem_assocInsert.mp hkv with rfl | ⟨hmem2, _⟩
            · exact hpid
            · exact h.pid_lt kv (mem_eraseKey.mp hmem2).1

theorem allocatePage_fst (d : DiskManager) :
    (DiskManager.allocatePage d).1 = d.next_page_id := rfl

theorem allocatePage_next (d : DiskManager) :
    (DiskManager.allocatePage d).2.next_page_id = d.next_page_id + 1 := rfl

theorem deallocatePage_next (pid : Int) (d : DiskManager) :
    (DiskManager.deallocatePage pid d).next_page_id = d.next_page_id := rfl

theorem poolInv_set_page {s : BPMState} (h : PoolInv s) (fid : Nat) (p : Page)
    (hpin : p.pin_count_ = (s.pages.getD fid defaultPage).pin_count_)
    (hpid : p.page_id_ = (s.pages.getD fid defaultPage).page_id_) :
    PoolInv { s with pages := s.pages.set fid p } := by
  obtain ⟨h1, h2, h3, h4, h5, h6, h7, h8, h9, h10, h11⟩ := h
  refine ⟨by simpa using h1, h2, h3, ?_, h5, h6, h7, h8, h9, ?_, h11⟩
  · intro f hf
    rw [getD_set_cases]
    split_ifs with hc
    · obtain ⟨he, _⟩ := hc
      rw [hpin, he]
      exact h4 f hf
    · exact h4 f hf
  · intro kv hkv
    rw [getD_set_cases]
    split_ifs with hc
    · obtain ⟨he, _⟩ := hc
      rw [hpid, he]
      exact h10 kv hkv
    · exact h10 kv hkv

theorem poolInv_unpin_keep {s : BPMState} (h : PoolInv s) {fid : Nat} (p : Page)
    (hpid : p.page_id_ = (s.pages.getD fid defaultPage).page_id_)
    (hpin_old : (s.pages.getD fid defaultPage).pin_count_ ≠ 0) :
    PoolInv { s with pages := s.pages.set fid p } := by
  obtain ⟨h1, h2, h3, h4, h5, h6, h7, h8, h9, h10, h11⟩ := h
  refine ⟨by simpa using h1, h2, h3, ?_, h5, h6, h7, h8, h9, ?_, h11⟩
  · intro f hf
    have hne : f ≠ fid := by
      intro hc
      exact hpin_old (hc ▸ h4 f hf)
    rw [getD_set_ne (fun he => hne he.symm)]
    exact h4 f hf
  · intro kv hkv
    rw [getD_set_cases]
    split_ifs with hc
    · obtain ⟨he, _⟩ := hc
      rw [hpid, he]
      exact h10 kv hkv
    · exact h10 kv hkv

theorem poolInv_unpin_zero {s : BPMState} (h : PoolInv s) {pid : Int} {fid : Nat}
    (hl : assocLookup pid s.page_table = some fid) (p : Page)
    (hpid : p.page_id_ = (s.pages.getD fid defaultPage).page_id_)
    (hpin : p.pin_count_ = 0) :
    PoolInv { s with pages := s.pages.set fid p,
                     replacer := rUnpin fid s.replacer } := by
  have hkv : (pid, fid) ∈ s.page_table := assocLookup_mem hl
  have hflt : fid < s.pool_size := h.pt_lt (pid, fid) hkv
  have hplen : fid < s.pages.length := h.pages_len ▸ hflt
  have hnotfree : fid ∉ s.free_list := h.pt_free (pid, fid) hkv
  obtain ⟨h1, h2, h3, h4, h5, h6, h7, h8, h9, h10, h11⟩ := h
  refine ⟨by simpa using h1, nodup_rUnpin h2, ?_, ?_, h5, h6, ?_, h8, h9, ?_, h11⟩
  · intro f hf
    rcases mem_rUnpin.mp hf with hf1 | rfl
    · exact h3 f hf1
    · exact hflt
  · intro f hf
    by_cases hc : f = fid
    · subst hc
      rw [getD_set_self hplen]
      exact hpin
    · rcases mem_rUnpin.mp hf with hf1 | he
      · rw [getD_set_ne (fun he => hc he.symm)]
        exact h4 f hf1
      · exact absurd he hc
  · intro f hf hmem
    rcases mem_rUnpin.mp hmem with hm1 | rfl
    · exact h7 f hf hm1
    · exact hnotfree hf
  · intro kv hkv2
    rw [getD_set_cases]
    split_ifs with hc
    · obtain ⟨he, _⟩ := hc
      rw [hpid, he]
      exact h10 kv hkv2
    · exact h10 kv hkv2

theorem poolInv_delete_frame {s : BPMState} (h : PoolInv s) {pid : Int} {fid : Nat}
    (hl : assocLookup pid s.page_table = some fid) (d : DiskManager) :
    PoolInv { s with disk := d,
                     pages := s.pages.set fid
                       { s.pages.getD fid defaultPage with page_id_ := -1 },
                     page_table := eraseKey pid s.page_table,
                     free_list := fid :: s.free_list,
                     replacer := rPin fid s.replacer } := by
  have hkv : (pid, fid) ∈ s.page_table := assocLookup_mem hl
  have hflt : fid < s.pool_size := h.pt_lt (pid, fid) hkv
  have hnotfree : fid ∉ s.free_list := h.pt_free (pid, fid) hkv
  obtain ⟨h1, h2, h3, h4, h5, h6, h7, h8, h9, h10, h11⟩ := h
  refine ⟨by simpa using h1, nodup_rPin h2, ?_, ?_, ?_, ?_, ?_,
    keys_nodup_eraseKey h8, ?_, ?_, ?_⟩
  · intro f hf
    exact h3 f (mem_rPin.mp hf).1
  · intro f hf
    obtain ⟨hf1, hf2⟩ := mem_rPin.mp hf
    rw [getD_set_ne (fun he => hf2 he.symm)]
    exact h4 f hf1
  · exact List.Nodup.cons hnotfree h5
  · intro f hf
    rcases List.mem_cons.mp hf with rfl | hf2
    · exact hflt
    · exact h6 f hf2
  · intro f hf hmem
    obtain ⟨hm1, hm2⟩ := mem_rPin.mp hmem
    rcases List.mem_cons.mp hf with rfl | hf2
    · exact hm2 rfl
    · exact h7 f hf2 hm1
  · intro kv hkv2
    exact h9 kv (mem_eraseKey.mp hkv2).1
  · intro kv hkv2
    obtain ⟨hkmem, hkne⟩ := mem_eraseKey.mp hkv2
    have hne : kv.2 ≠ fid := by
      intro hc
      apply hkne
      have e1 := h10 kv hkmem
      have e2 := h10 (pid, fid) hkv
      rw [hc] at e1
      exact e1.symm.trans e2
    rw [getD_set_ne (fun he => hne he.symm)]
    exact h10 kv hkmem
  · intro kv hkv2 hmem
    obtain ⟨hkmem, hkne⟩ := mem_eraseKey.mp hkv2
    have hne : kv.2 ≠ fid := by
      intro hc
      apply hkne
      have e1 := h10 kv hkmem
      have e2 := h10 (pid, fid) hkv
      rw [hc] at e1
      exact e1.symm.trans e2
    rcases List.mem_cons.mp hmem with he | hf2
    · exact hne he
    · exact h11 kv hkmem hf2

theorem poolInvA_flushPageHelper {s : BPMState} (h : PoolInvA s) (fid : Nat) :
    PoolInvA (flushPageHelper s fid) := by
  refine ⟨poolInv_flushPageHelper h.base fid, ?_, ?_, ?_⟩
  · simp only [flushPageHelper_pages, flushPageHelper_page_table, flushPageHelper_replacer]
    intro f hf
    rw [getD_set_cases]
    split_ifs with hc
    · obtain ⟨he, _⟩ := hc
      rw [he]
      exact h.repl_pt f hf
    · exact h.repl_pt f hf
  · simp only [flushPageHelper_free_list, flushPageHelper_page_table, flushPageHelper_pool_size]
    exact h.card
  · simp only [flushPageHelper_page_table, flushPageHelper_next_page_id]
    exact h.pid_lt

theorem poolInvA_unpinPage {s : BPMState} (h : PoolInvA s) (pid : Int) (d : Bool) :
    PoolInvA (unpinPage s pid d).2 := by
  unfold unpinPage
  cases hl : assocLookup pid s.page_table with
  | none =>
    simp only [hl]
    exact h
  | some fid =>
    simp only [hl]
    have hkv : (pid, fid) ∈ s.page_table := assocLookup_mem hl
    have hflt : fid < s.pool_size := h.base.pt_lt (pid, fid) hkv
    have hplen : fid < s.pages.length := h.base.pages_len ▸ hflt
    split_ifs with hp0 hp1
    · refine ⟨poolInv_set_page h.base fid _ rfl rfl, ?_, h.card, h.pid_lt⟩
      simp only []
      intro f hf
      rw [getD_set_cases]
      split_ifs with hc
      · obtain ⟨he, _⟩ := hc
        rw [he]
        exact h.repl_pt f hf
      · exact h.repl_pt f hf
    · rw [List.set_set]
      refine ⟨poolInv_unpin_zero h.base hl _ rfl hp1, ?_, h.card, h.pid_lt⟩
      simp only []
      intro f hf
      rw [getD_set_cases]
      split_ifs with hc
      · obtain ⟨he, _⟩ := hc
        have hco := h.base.pt_coh (pid, fid) hkv
        show assocLookup ((s.pages.getD fid defaultPage)).page_id_ s.page_table = some f
        rw [hco, ← he]
        exact hl
      · rcases mem_rUnpin.mp hf with hf1 | rfl
        · exact h.repl_pt f hf1
        · exact absurd ⟨rfl, hplen⟩ hc
    · rw [List.set_set]
      refine ⟨poolInv_unpin_keep h.base _ rfl hp0, ?_, h.card, h.pid_lt⟩
      simp only []
      intro f hf
      rw [getD_set_cases]
      split_ifs with hc
      · obtain ⟨he, _⟩ := hc
        rw [he]
        exact h.repl_pt f hf
      · exact h.repl_pt f hf

theorem poolInvA_newPage {s : BPMState} (h : PoolInvA s) : PoolInvA (newPage s).2 := by
  have hfresh : assocLookup s.disk.next_page_id s.page_table = none := by
    rw [assocLookup_eq_none_iff]
    intro hmemk
    obtain ⟨kv, hkv, he⟩ := List.mem_map.mp hmemk
    have := h.pid_lt kv hkv
    omega
  unfold newPage
  split_ifs with hempty
  · exact h
  · cases hp : popBack s.free_list with
    | some pr =>
      obtain ⟨fid, rest⟩ := pr
      simp only [hp, allocatePage_fst]
      refine ⟨poolInv_install
        (poolInv_pop_free (poolInv_set_disk h.base (DiskManager.allocatePage s.disk).2) hp) _
        (h.base.free_lt fid (popBack_mem hp))
        ((popBack_nodup hp h.base.free_nodup).2)
        (h.base.free_repl fid (popBack_mem hp))
        (fun kv hkv hc => h.base.pt_free kv hkv (hc ▸ popBack_mem hp)) rfl, ?_, ?_, ?_⟩
      · simp only []
        intro f hf
        have hne : f ≠ fid := fun hc =>
          h.base.free_repl fid (popBack_mem hp) (hc ▸ hf)
        rw [getD_set_ne (fun he => hne he.symm)]
        have hkey : (s.pages.getD f defaultPage).page_id_ ≠ s.disk.next_page_id := by
          intro hc
          have h2 := h.repl_pt f hf
          rw [hc, hfresh] at h2
          exact Option.noConfusion h2
        rw [assocLookup_assocInsert_ne hkey]
        exact h.repl_pt f hf
      · simp only []
        rw [length_assocInsert_of_none (v := fid) hfresh]
        have e1 := popBack_length hp
        have e3 := h.card
        omega
      · simp only [allocatePage_next]
        intro kv hkv
        rcases mem_assocInsert.mp hkv with rfl | ⟨hmem, _⟩
        · omega
        · have := h.pid_lt kv hmem
          omega
    | none =>
      simp only [hp]
      cases he : rEvict s.replacer with
      | none =>
        simp only [he]
        refine ⟨poolInv_set_disk h.base (DiskManager.allocatePage s.disk).2, h.repl_pt, h.card, ?_⟩
        simp only [allocatePage_next]
        intro kv hkv
        have := h.pid_lt kv hkv
        omega
      | some pr =>
        obtain ⟨fid, r⟩ := pr
        simp only [he, allocatePage_fst]
        have hmem : fid ∈ s.replacer := by
          rw [rEvict_spec he]
          exact List.mem_cons_self _ _
        have hlt : fid < s.pool_size := h.base.repl_lt fid hmem
        have hnotfree : fid ∉ s.free_list := fun hf => h.base.free_repl fid hf hmem
        have hnr : fid ∉ r := by
          have := rEvict_spec he ▸ h.base.repl_nodup
          exact (List.nodup_cons.mp this).1
        have hpt : ∀ kv ∈ eraseKey (s.pages.getD fid defaultPage).page_id_ s.page_table,
            kv.2 ≠ fid := by
          intro kv hkv hc
          obtain ⟨hkmem, hkne⟩ := mem_eraseKey.mp hkv
          exact hkne (hc ▸ h.base.pt_coh kv hkmem).symm
        have hvic := h.repl_pt fid hmem
        have hcard : (assocInsert s.disk.next_page_id fid
            (eraseKey (s.pages.getD fid defaultPage).page_id_ s.page_table)).length =
            s.page_table.length := by
          have e1 := length_eraseKey_of_lookup h.base.keys_nodup hvic
          have e2 := length_assocInsert_of_none (v := fid)
            (@assocLookup_eraseKey_none Nat s.disk.next_page_id
              ((s.pages.getD fid defaultPage).page_id_) s.page_table hfresh)
          omega
        have hrepl_pt : ∀ f ∈ r,
            assocLookup ((s.pages.getD f defaultPage).page_id_)
              (assocInsert s.disk.next_page_id fid
                (eraseKey (s.pages.getD fid defaultPage).page_id_ s.page_table)) =
              some f := by
          intro f hf
          have hfr : f ∈ s.replacer := by
            rw [rEvict_spec he]
            exact List.mem_cons_of_mem _ hf
          have hne_fid : f ≠ fid := fun hc => hnr (hc ▸ hf)
          have hk1 : (s.pages.getD f defaultPage).page_id_ ≠ s.disk.next_page_id := by
            intro hc
            have h2 := h.repl_pt f hfr
            rw [hc, hfresh] at h2
            exact Option.noConfusion h2
          have hk2 : (s.pages.getD f defaultPage).page_id_ ≠
              (s.pages.getD fid defaultPage).page_id_ := by
            intro hc
            have e1 := h.repl_pt f hfr
            rw [hc, hvic] at e1
            have : fid = f := by simpa using e1
            exact hne_fid this.symm
          rw [assocLookup_assocInsert_ne hk1, assocLookup_eraseKey_ne hk2]
          exact h.repl_pt f hfr
        by_cases hd : (s.pages.getD fid defaultPage).is_dirty_ <;>
          simp only [hd, if_true, if_false, Bool.false_eq_true, ite_true, ite_false]
        · refine ⟨poolInv_install
            (poolInv_eraseKey_pt
              (poolInv_flushPageHelper (poolInv_evict_tail
                (poolInv_set_disk h.base (DiskManager.allocatePage s.disk).2) he) fid) _)
            _ hlt hnotfree hnr hpt rfl, ?_, ?_, ?_⟩
          · simp only [flushPageHelper_pages, flushPageHelper_page_table,
              flushPageHelper_replacer]
            intro f hf
            have hne_fid : f ≠ fid := fun hc => hnr (hc ▸ hf)
            rw [List.set_set, getD_set_ne (fun he2 => hne_fid he2.symm)]
            exact hrepl_pt f hf
          · simp only [flushPageHelper_free_list, flushPageHelper_page_table,
              flushPageHelper_pool_size]
            rw [hcard]
            exact h.card
          · simp only [flushPageHelper_page_table, flushPageHelper_next_page_id,
              allocatePage_next]
            intro kv hkv
            rcases mem_assocInsert.mp hkv with rfl | ⟨hmem2, _⟩
            · omega
            · have := h.pid_lt kv (mem_eraseKey.mp hmem2).1
              omega
        · refine ⟨poolInv_install
            (poolInv_eraseKey_pt (poolInv_evict_tail
              (poolInv_set_disk h.base (DiskManager.allocatePage s.disk).2) he) _)
            _ hlt hnotfree hnr hpt rfl, ?_, ?_, ?_⟩
          · simp only []
            intro f hf
            have hne_fid : f ≠ fid := fun hc => hnr (hc ▸ hf)
            rw [getD_set_ne (fun he2 => hne_fid he2.symm)]
            exact hrepl_pt f hf
          · simp only []
            rw [hcard]
            exact h.card
          · simp only [allocatePage_next]
            intro kv hkv
            rcases mem_assocInsert.mp hkv with rfl | ⟨hmem2, _⟩
            · omega
            · have := h.pid_lt kv (mem_eraseKey.mp hmem2).1
              omega

theorem poolInvA_deletePage {s : BPMState} (h : PoolInvA s) (pid : Int) :
    PoolInvA (deletePage s pid).2 := by
  unfold deletePage
  cases hl : assocLookup pid s.page_table with
  | none =>
    simp only [hl]
    exact ⟨poolInv_set_disk h.base (DiskManager.deallocatePage pid s.disk), h.repl_pt,
      h.card, h.pid_lt⟩
  | some fid =>
    simp only [hl]
    have hkv : (pid, fid) ∈ s.page_table := assocLookup_mem hl
    split_ifs with hpin
    · exact ⟨poolInv_set_disk h.base (DiskManager.deallocatePage pid s.disk), h.repl_pt,
        h.card, h.pid_lt⟩
    · refine ⟨poolInv_delete_frame h.base hl _, ?_, ?_, ?_⟩
      · simp only []
        intro f hf
        obtain ⟨hf1, hf2⟩ := mem_rPin.mp hf
        rw [getD_set_ne (fun he2 => hf2 he2.symm)]
        have hkey : (s.pages.getD f defaultPage).page_id_ ≠ pid := by
          intro hc
          have h2 := h.repl_pt f hf1
          rw [hc, hl] at h2
          have h3 : fid = f := by simpa using h2
          exact hf2 h3.symm
        rw [assocLookup_eraseKey_ne hkey]
        exact h.repl_pt f hf1
      · simp only [List.length_cons]
        have e1 := length_eraseKey_of_lookup h.base.keys_nodup hl
        have e3 := h.card
        omega
      · simp only [deallocatePage_next]
        intro kv hkv2
        exact h.pid_lt kv (mem_eraseKey.mp hkv2).1

theorem poolInvA_flushPage {s : BPMState} (h : PoolInvA s) (pid : Int) :
    PoolInvA (flushPage s pid).2 := by
  unfold flushPage
  cases hl : assocLookup pid s.page_table with
  | none =>
    simp only [hl]
    exact h
  | some fid =>
    simp only [hl]
    exact poolInvA_flushPageHelper h fid

theorem poolInvA_flushAllPages {s : BPMState} (h : PoolInvA s) :
    PoolInvA (flushAllPages s) := by
  unfold flushAllPages
  generalize List.range s.pool_size = l
  induction l generalizing s with
  | nil => exact h
  | cons i rest ih =>
    simp only [List.foldl_cons]
    apply ih
    cases hl : assocLookup ((s.pages.getD i defaultPage).page_id_) s.page_table with
    | none =>
      simp only [hl]
      exact h
    | some fid =>
      simp only [hl]
      exact poolInvA_flushPageHelper h i

theorem poolInvA_applyOp {s : BPMState} (h : PoolInvA s) (op : Op)
    (ha : OpAllowed s op) : PoolInvA (applyOp s op) := by
  cases op with
  | fetch pid b => exact poolInvA_fetchPage h b ha.2
  | unpin pid d => exact poolInvA_unpinPage h pid d
  | newp => exact poolInvA_newPage h
  | del pid => exact poolInvA_deletePage h pid
  | flushp pid => exact poolInvA_flushPage h pid
  | flushAll => exact poolInvA_flushAllPages h

theorem reachA_poolInvA {s : BPMState} (h : ReachA s) : PoolInvA s := by
  induction h with
  | init n b => exact poolInvA_init n b
  | step op hr ha ih => exact poolInvA_applyOp ih op ha

/-- The WAL-ordering check over a call trace: scanning left to right while
remembering the LSN of the last forced log flush, every `WritePage` call must
be covered by a preceding forced flush whose LSN is at least the written
page's header LSN. -/
def walOkAux : Option Nat → List Event → Bool
  | _, [] => true
  | _, Event.logFlush l true :: rest => walOkAux (some l) rest
  | last, Event.logFlush _ false :: rest => walOkAux last rest
  | last, Event.diskWrite _ d :: rest =>
    (match last with
     | some l => decide (d.lsn ≤ l)
     | none => false) && walOkAux last rest

theorem walOkAux_append {t u : List Event} {a : Option Nat} (ht : walOkAux a t = true)
    (hu : ∀ b, walOkAux b u = true) : walOkAux a (t ++ u) = true := by
  induction t generalizing a with
  | nil => simpa using hu a
  | cons e t ih =>
    cases e with
    | logFlush l force =>
      cases force with
      | true =>
        simp only [walOkAux, List.cons_append] at ht ⊢
        exact ih ht
      | false =>
        simp only [walOkAux, List.cons_append] at ht ⊢
        exact ih ht
    | diskWrite p d =>
      simp only [walOkAux, List.cons_append, Bool.and_eq_true] at ht ⊢
      exact ⟨ht.1, ih ht.2⟩

/-- The WAL invariant carried through every trace: a log manager is
configured and the trace so far passes the WAL-ordering check. -/
def WalInv (s : BPMState) : Prop :=
  s.has_log = true ∧ walOkAux none s.trace = true

theorem flushPageHelper_trace (s : BPMState) (fid : Nat) :
    (flushPageHelper s fid).trace =
      s.trace ++ (if s.has_log
          then [Event.logFlush (s.pages.getD fid defaultPage).data_.lsn true]
          else []) ++
        [Event.diskWrite (s.pages.getD fid defaultPage).page_id_
          (s.pages.getD fid defaultPage).data_] := rfl

theorem walInv_flushPageHelper {s : BPMState} (h : WalInv s) (fid : Nat) :
    WalInv (flushPageHelper s fid) := by
  obtain ⟨hl, ht⟩ := h
  refine ⟨hl, ?_⟩
  rw [flushPageHelper_trace, hl, List.append_assoc]
  refine walOkAux_append ht ?_
  intro b
  simp [walOkAux]

theorem walInv_applyOp {s : BPMState} (h : WalInv s) (op : Op) :
    WalInv (applyOp s op) := by
  cases op with
  | fetch pid b =>
    show WalInv (fetchPage s pid b).2
    unfold fetchPage
    cases hl : assocLookup pid s.page_table with
    | some fid =>
      simp only [hl]
      exact h
    | none =>
      simp only [hl]
      cases hp : popBack s.free_list with
      | some pr =>
        obtain ⟨fid, rest⟩ := pr
        simp only [hp]
        exact h
      | none =>
        simp only [hp]
        cases he : rEvict s.replacer with
        | none =>
          simp only [he]
          exact h
        | some pr =>
          obtain ⟨fid, r⟩ := pr
          simp only [he]
          by_cases hd : (s.pages.getD fid defaultPage).is_dirty_ <;>
            simp only [hd, if_true, if_false, Bool.false_eq_true, ite_true, ite_false]
          · have hw := walInv_flushPageHelper
              (show WalInv { s with replacer := r } from h) fid
            exact ⟨hw.1, hw.2⟩
          · exact h
  | unpin pid d =>
    show WalInv (unpinPage s pid d).2
    unfold unpinPage
    cases hl : assocLookup pid s.page_table with
    | none =>
      simp only [hl]
      exact h
    | some fid =>
      simp only [hl]
      split_ifs with hp0 hp1
      · exact h
      · exact h
      · exact h
  | newp =>
    show WalInv (newPage s).2
    unfold newPage
    split_ifs with hempty
    · exact h
    · cases hp : popBack s.free_list with
      | some pr =>
        obtain ⟨fid, rest⟩ := pr
        simp only [hp]
        exact h
      | none =>
        simp only [hp]
        cases he : rEvict s.replacer with
        | none =>
          simp only [he]
          exact h
        | some pr =>
          obtain ⟨fid, r⟩ := pr
          simp only [he]
          by_cases hd : (s.pages.getD fid defaultPage).is_dirty_ <;>
            simp only [hd, if_true, if_false, Bool.false_eq_true, ite_true, ite_false]
          · have hs1 : WalInv { s with
                disk := (DiskManager.allocatePage s.disk).2
                replacer := r } := h
            have hw := walInv_flushPageHelper hs1 fid
            exact ⟨hw.1, hw.2⟩
          · exact h
  | del pid =>
    show WalInv (deletePage s pid).2
    unfold deletePage
    cases hl : assocLookup pid s.page_table with
    | none =>
      simp only [hl]
      exact h
    | some fid =>
      simp only [hl]
      split_ifs with hpin
      · exact h
      · exact h
  | flushp pid =>
    show WalInv (flushPage s pid).2
    unfold flushPage
    cases hl : assocLookup pid s.page_table with
    | none =>
      simp only [hl]
      exact h
    | some fid =>
      simp only [hl]
      exact walInv_flushPageHelper h fid
  | flushAll =>
    show WalInv (flushAllPages s)
    unfold flushAllPages
    generalize List.range s.pool_size = l
    induction l generalizing s with
    | nil => exact h
    | cons i rest ih =>
      simp only [List.foldl_cons]
      apply ih
      cases hl : assocLookup ((s.pages.getD i defaultPage).page_id_) s.page_table with
      | none =>
        simp only [hl]
        exact h
      | some fid =>
        simp only [hl]
        exact walInv_flushPageHelper h i

theorem walInv_runOps {s : BPMState} (h : WalInv s) (ops : List Op) :
    WalInv (ops.foldl applyOp s) := by
  induction ops generalizing s with
  | nil => exact h
  | cons op rest ih =>
    simp only [List.foldl_cons]
    exact ih (walInv_applyOp h op)

/-- C1: WAL ordering. With a log manager configured, after any sequence of
public buffer pool operations from the initial state, the call trace passes
the WAL-ordering check — every `disk.WritePage(p, d)` is preceded by a
forced `log.Flush(L, true)` whose `L` is at least `d`'s header LSN (the last
preceding forced flush in particular); and `FlushPageHelper` clears the
flushed frame's dirty flag. -/
theorem claim_C1 :
    (∀ (pool_size : Nat) (ops : List Op),
      walOkAux none ((ops.foldl applyOp (initState pool_size true)).trace) = true) ∧
    (∀ (s : BPMState) (fid : Nat), fid < s.pages.length →
      ((flushPageHelper s fid).pages.getD fid defaultPage).is_dirty_ = false) := by
  constructor
  · intro n ops
    exact (walInv_runOps (s := initState n true) ⟨rfl, rfl⟩ ops).2
  · intro s fid hlen
    rw [flushPageHelper_pages, getD_set_self hlen]

/-- Witness for C1: a concrete trace with a flush, an eviction of a dirty
page and a full sweep passes the check, and flushing frame 0 of a fresh pool
leaves it clean. -/
theorem claim_C1_witness :
    walOkAux none
      (([Op.newp, Op.unpin 0 true, Op.flushp 0, Op.newp, Op.flushAll].foldl applyOp
        (initState 1 true)).trace) = true ∧
    0 < (initState 2 true).pages.length ∧
    ((flushPageHelper (initState 2 true) 0).pages.getD 0 defaultPage).is_dirty_ = false :=
  ⟨claim_C1.1 1 [Op.newp, Op.unpin 0 true, Op.flushp 0, Op.newp, Op.flushAll],
    by decide, claim_C1.2 (initState 2 true) 0 (by decide)⟩

/-- C4: no live eviction. In every reachable state, every frame in the
replacer's eligible set has pin count zero, so an eviction victim always has
pin count zero. -/
theorem claim_C4 (s : BPMState) (h : Reach s) :
    (∀ f ∈ s.replacer, (s.pages.getD f defaultPage).pin_count_ = 0) ∧
    (∀ f r, rEvict s.replacer = some (f, r) →
      (s.pages.getD f defaultPage).pin_count_ = 0) := by
  have hi := reach_poolInv h
  refine ⟨hi.repl_pin, ?_⟩
  intro f r he
  refine hi.repl_pin f ?_
  rw [rEvict_spec he]
  exact List.mem_cons_self _ _

/-- Witness for C4 at the reachable state with one unpinned resident page,
whose replacer holds exactly frame 0 with pin count zero. -/
theorem claim_C4_witness :
    (∀ f ∈ (applyOp (applyOp (initState 1 true) Op.newp) (Op.unpin 0 false)).replacer,
      ((applyOp (applyOp (initState 1 true) Op.newp) (Op.unpin 0 false)).pages.getD f
        defaultPage).pin_count_ = 0) ∧
    (∀ f r, rEvict (applyOp (applyOp (initState 1 true) Op.newp)
        (Op.unpin 0 false)).replacer = some (f, r) →
      ((applyOp (applyOp (initState 1 true) Op.newp) (Op.unpin 0 false)).pages.getD f
        defaultPage).pin_count_ = 0) :=
  claim_C4 _ (Reach.step (Op.unpin 0 false) (Reach.step Op.newp (Reach.init 1 true)))

/-- The resource-conservation property of C2: the free list and the page
table partition the frames, and no page-table frame is on the free list. -/
def conservation (s : BPMState) : Prop :=
  s.free_list.length + s.page_table.length = s.pool_size ∧
  ∀ f ∈ s.free_list, ∀ kv ∈ s.page_table, kv.2 ≠ f

instance (s : BPMState) : Decidable (conservation s) := by
  unfold conservation
  infer_instance

/-- C2 (as stated) fails: from the initial two-frame pool, `FetchPage 0`
(a page id the disk manager has not yet allocated) keeps conservation, but
the following `NewPage` allocates page id 0 again and the page-table
assignment overwrites the existing entry, losing a frame:
`|free_list| + |page_table|` drops to 1. -/
theorem claim_C2_counterexample :
    conservation (applyOp (initState 2 true) (Op.fetch 0 false)) ∧
    ¬ conservation (applyOp (applyOp (initState 2 true) (Op.fetch 0 false)) Op.newp) := by
  decide

/-- C2 (amended): provided every `FetchPage` call uses a page id the disk
manager has already allocated (`OpAllowed`), every reachable state satisfies
resource conservation: `|free_list| + |page_table| = pool_size` and the free
list is disjoint from the page table's frames. -/
theorem claim_C2_amended (s : BPMState) (h : ReachA s) :
    s.free_list.length + s.page_table.length = s.pool_size ∧
    ∀ f ∈ s.free_list, ∀ kv ∈ s.page_table, kv.2 ≠ f := by
  have hi := reachA_poolInvA h
  refine ⟨hi.card, ?_⟩
  intro f hf kv hkv hc
  exact hi.base.pt_free kv hkv (hc ▸ hf)

/-- Witness for the amended C2 after an allocation, a fetch of the allocated
page and a deletion. -/
theorem claim_C2_amended_witness :
    (applyOp (applyOp (applyOp (initState 2 true) Op.newp) (Op.unpin 0 false))
        (Op.del 0)).free_list.length +
      (applyOp (applyOp (applyOp (initState 2 true) Op.newp) (Op.unpin 0 false))
        (Op.del 0)).page_table.length =
      (applyOp (applyOp (applyOp (initState 2 true) Op.newp) (Op.unpin 0 false))
        (Op.del 0)).pool_size :=
  (claim_C2_amended _
    (ReachA.step (Op.del 0)
      (ReachA.step (Op.unpin 0 false)
        (ReachA.step Op.newp (ReachA.init 2 true) trivial) trivial) trivial)).1

/-- C3 (as stated) fails: at the reachable state with one resident, clean,
unpinned page, `UnpinPage(0, true)` returns false (pin count already zero),
yet the frame's dirty flag flips from false to true — the failure is not
atomic. -/
theorem claim_C3_counterexample :
    (unpinPage (applyOp (applyOp (initState 1 true) Op.newp) (Op.unpin 0 false)) 0 true).1 =
      false ∧
    ((applyOp (applyOp (initState 1 true) Op.newp) (Op.unpin 0 false)).pages.getD 0
      defaultPage).is_dirty_ = false ∧
    ((unpinPage (applyOp (applyOp (initState 1 true) Op.newp) (Op.unpin 0 false))
      0 true).2.pages.getD 0 defaultPage).is_dirty_ = true := by
  decide

/-- C3 (amended): `UnpinPage` returns false when the page is not resident
(state unchanged), and when the frame's pin count is already zero — but in
the latter case `is_dirty` has already been OR-ed into the frame's dirty flag
before the failure; on success the dirty flag is OR-ed, the pin count
decremented, and the frame is handed to the replacer exactly when the pin
count reaches zero. -/
theorem claim_C3_amended (s : BPMState) (pid : Int) (d : Bool) :
    (assocLookup pid s.page_table = none → unpinPage s pid d = (false, s)) ∧
    (∀ fid, assocLookup pid s.page_table = some fid →
      ((s.pages.getD fid defaultPage).pin_count_ = 0 →
        unpinPage s pid d = (false,
          { s with pages := (s.pages.set fid
              { s.pages.getD fid defaultPage with
                is_dirty_ := (s.pages.getD fid defaultPage).is_dirty_ || d }) })) ∧
      ((s.pages.getD fid defaultPage).pin_count_ ≠ 0 → fid < s.pages.length →
        (unpinPage s pid d).1 = true ∧
        ((unpinPage s pid d).2.pages.getD fid defaultPage).is_dirty_ =
          ((s.pages.getD fid defaultPage).is_dirty_ || d) ∧
        ((unpinPage s pid d).2.pages.getD fid defaultPage).pin_count_ =
          (s.pages.getD fid defaultPage).pin_count_ - 1 ∧
        ((s.pages.getD fid defaultPage).pin_count_ - 1 = 0 →
          (unpinPage s pid d).2.replacer = rUnpin fid s.replacer) ∧
        ((s.pages.getD fid defaultPage).pin_count_ - 1 ≠ 0 →
          (unpinPage s pid d).2.replacer = s.replacer))) := by
  refine ⟨?_, ?_⟩
  · intro hl
    simp only [unpinPage, hl]
  · intro fid hl
    constructor
    · intro hp0
      simp only [unpinPage, hl, hp0, if_true, eq_self_iff_true, ite_true]
    · intro hp0 hlen
      simp only [unpinPage, hl, List.set_set]
      split_ifs with h1 h2
      · exact absurd h1 hp0
      · refine ⟨rfl, ?_, ?_, fun _ => rfl, fun hc => absurd h2 hc⟩
        · rw [getD_set_self hlen]
        · rw [getD_set_self hlen]
      · refine ⟨rfl, ?_, ?_, fun hc => absurd hc h2, fun _ => rfl⟩
        · rw [getD_set_self hlen]
        · rw [getD_set_self hlen]

/-- Witness for the amended C3: the not-resident case on a fresh pool, the
pin-count-zero failure with the dirty flag already OR-ed, and a successful
unpin that hands frame 0 to the replacer. -/
theorem claim_C3_amended_witness :
    unpinPage (initState 1 true) 5 true = (false, initState 1 true) ∧
    ((unpinPage (applyOp (applyOp (initState 1 true) Op.newp) (Op.unpin 0 false))
      0 true).2.pages.getD 0 defaultPage).is_dirty_ = true ∧
    (unpinPage (applyOp (initState 1 true) Op.newp) 0 true).1 = true ∧
    (unpinPage (applyOp (initState 1 true) Op.newp) 0 true).2.replacer =
      rUnpin 0 (applyOp (initState 1 true) Op.newp).replacer := by
  refine ⟨(claim_C3_amended (initState 1 true) 5 true).1 (by decide), ?_, ?_, ?_⟩
  · have h2 := ((claim_C3_amended (applyOp (applyOp (initState 1 true) Op.newp)
      (Op.unpin 0 false)) 0 true).2 0 (by decide)).1 (by decide)
    rw [h2]
    decide
  · exact (((claim_C3_amended (applyOp (initState 1 true) Op.newp) 0 true).2 0
      (by decide)).2 (by decide) (by decide)).1
  · exact (((claim_C3_amended (applyOp (initState 1 true) Op.newp) 0 true).2 0
      (by decide)).2 (by decide) (by decide)).2.2.2.1 (by decide)

/-- C5: `NewPage` returns null exactly when the free list is empty and the
replacer holds no eligible frame, and in that case the state (including the
disk manager's allocator) is unchanged; otherwise it allocates the next
fresh page id, records the page-table mapping onto the obtained frame, and
installs a zero-filled page with `pin_count = 1` and `is_dirty = false` —
after flushing the victim to disk first when one was evicted dirty. -/
theorem claim_C5 (s : BPMState) :
    ((newPage s).1 = none ↔ s.free_list = [] ∧ s.replacer = []) ∧
    ((newPage s).1 = none → (newPage s).2 = s) ∧
    (∀ pid fid, (newPage s).1 = some (pid, fid) →
      pid = s.disk.next_page_id ∧
      (newPage s).2.disk.next_page_id = s.disk.next_page_id + 1 ∧
      assocLookup pid (newPage s).2.page_table = some fid ∧
      (fid < s.pages.length →
        (newPage s).2.pages.getD fid defaultPage = ⟨pid, 1, false, zeroPageData⟩) ∧
      (∀ v r, s.free_list = [] → rEvict s.replacer = some (v, r) →
        (s.pages.getD v defaultPage).is_dirty_ = true →
        Event.diskWrite (s.pages.getD v defaultPage).page_id_
          (s.pages.getD v defaultPage).data_ ∈ (newPage s).2.trace)) := by
  unfold newPage
  split_ifs with hempty
  · obtain ⟨hf, hr⟩ := hempty
    refine ⟨by simp [hf, List.length_eq_zero.mp hr], fun _ => rfl, ?_⟩
    intro pid fid hsome
    exact hsome.elim
  · cases hp : popBack s.free_list with
    | some pr =>
      obtain ⟨fid0, rest⟩ := pr
      simp only [hp]
      have hfne : s.free_list ≠ [] := by
        intro hc
        rw [hc] at hp
        exact Option.noConfusion (popBack_eq_none_iff.mpr rfl ▸ hp)
      refine ⟨by simp [hfne], by simp, ?_⟩
      intro pid fid hsome
      simp only [Option.some.injEq, Prod.mk.injEq] at hsome
      obtain ⟨rfl, rfl⟩ := hsome
      refine ⟨rfl, rfl, assocLookup_assocInsert_self, ?_, ?_⟩
      · intro hlen
        rw [getD_set_self hlen]
      · intro v r hfl
        exact absurd hfl hfne
    | none =>
      simp only [hp]
      have hfl : s.free_list = [] := popBack_eq_none_iff.mp hp
      cases he : rEvict s.replacer with
      | none =>
        exact absurd ⟨hfl, by simp [rSize, rEvict_eq_none_iff.mp he]⟩ hempty
      | some pr =>
        obtain ⟨fid0, r0⟩ := pr
        simp only [he]
        have hrne : s.replacer ≠ [] := by
          rw [rEvict_spec he]
          simp
        by_cases hd : (s.pages.getD fid0 defaultPage).is_dirty_ <;>
          simp only [hd, if_true, if_false, Bool.false_eq_true, ite_true, ite_false]
        · refine ⟨by simp [hrne], by simp, ?_⟩
          intro pid fid hsome
          simp only [Option.some.injEq, Prod.mk.injEq] at hsome
          obtain ⟨rfl, rfl⟩ := hsome
          refine ⟨rfl, ?_, assocLookup_assocInsert_self, ?_, ?_⟩
          · simp only [flushPageHelper_next_page_id, allocatePage_next]
          · intro hlen
            simp only [flushPageHelper_pages, List.set_set]
            rw [getD_set_self hlen]
          · intro v r _ hev hdirty
            simp only [Option.some.injEq, Prod.mk.injEq] at hev
            obtain ⟨hv, hr2⟩ := hev
            rw [← hv]
            simp only [flushPageHelper_trace]
            simp
        · refine ⟨by simp [hrne], by simp, ?_⟩
          intro pid fid hsome
          simp only [Option.some.injEq, Prod.mk.injEq] at hsome
          obtain ⟨rfl, rfl⟩ := hsome
          refine ⟨rfl, rfl, assocLookup_assocInsert_self, ?_, ?_⟩
          · intro hlen
            rw [getD_set_self hlen]
          · intro v r _ hev hdirty
            simp only [Option.some.injEq, Prod.mk.injEq] at hev
            obtain ⟨hv, hr2⟩ := hev
            rw [← hv] at hdirty
            rw [hdirty] at hd
            exact absurd rfl hd

/-- Witness for C5: exhaustion on a zero-frame pool leaves the state (and
allocator) untouched; a fresh one-frame pool serves page 0 from frame 0 with
a zero-filled pinned clean page; evicting a dirty page writes it to disk. -/
theorem claim_C5_witness :
    (newPage (initState 0 true)).2 = initState 0 true ∧
    assocLookup 0 (newPage (initState 1 true)).2.page_table = some 0 ∧
    (newPage (initState 1 true)).2.pages.getD 0 defaultPage = ⟨0, 1, false, zeroPageData⟩ ∧
    Event.diskWrite
      (((applyOp (applyOp (initState 1 true) Op.newp) (Op.unpin 0 true)).pages.getD 0
        defaultPage).page_id_)
      (((applyOp (applyOp (initState 1 true) Op.newp) (Op.unpin 0 true)).pages.getD 0
        defaultPage).data_) ∈
      (newPage (applyOp (applyOp (initState 1 true) Op.newp) (Op.unpin 0 true))).2.trace := by
  refine ⟨(claim_C5 (initState 0 true)).2.1 (by decide), ?_, ?_, ?_⟩
  · exact ((claim_C5 (initState 1 true)).2.2 0 0 (by decide)).2.2.1
  · exact ((claim_C5 (initState 1 true)).2.2 0 0 (by decide)).2.2.2.1 (by decide)
  · exact ((claim_C5 (applyOp (applyOp (initState 1 true) Op.newp)
      (Op.unpin 0 true))).2.2 1 0 (by decide)).2.2.2.2 0 [] (by decide) (by decide) (by decide)

/-- C6: `DeletePage` always records the deallocation with the disk manager
(even when it subsequently fails); it succeeds trivially for a non-resident
page; a pinned resident page makes it fail with no change to the pool's
frames, tables or lists; otherwise it invalidates the frame's page id, drops
the page-table entry, pushes the frame onto the free list, removes it from
the replacer and succeeds. -/
theorem claim_C6 (s : BPMState) (pid : Int) :
    ((deletePage s pid).2.disk.deallocated = pid :: s.disk.deallocated) ∧
    (assocLookup pid s.page_table = none →
      (deletePage s pid).1 = true ∧
      (deletePage s pid).2 = { s with disk := DiskManager.deallocatePage pid s.disk }) ∧
    (∀ fid, assocLookup pid s.page_table = some fid →
      ((s.pages.getD fid defaultPage).pin_count_ > 0 →
        (deletePage s pid).1 = false ∧
        (deletePage s pid).2 = { s with disk := DiskManager.deallocatePage pid s.disk }) ∧
      ((s.pages.getD fid defaultPage).pin_count_ = 0 →
        (deletePage s pid).1 = true ∧
        (fid < s.pages.length →
          ((deletePage s pid).2.pages.getD fid defaultPage).page_id_ = -1) ∧
        assocLookup pid (deletePage s pid).2.page_table = none ∧
        (deletePage s pid).2.free_list = fid :: s.free_list ∧
        fid ∉ (deletePage s pid).2.replacer)) := by
  refine ⟨?_, ?_, ?_⟩
  · unfold deletePage
    cases hl : assocLookup pid s.page_table with
    | none =>
      simp only [hl]
      rfl
    | some fid =>
      simp only [hl]
      split_ifs with hpin
      · rfl
      · rfl
  · intro hl
    unfold deletePage
    simp only [hl]
    exact ⟨by trivial, by trivial⟩
  · intro fid hl
    constructor
    · intro hpin
      unfold deletePage
      simp only [hl]
      rw [if_pos hpin]
      exact ⟨by trivial, by trivial⟩
    · intro hpin
      unfold deletePage
      simp only [hl]
      rw [if_neg (by omega)]
      refine ⟨rfl, ?_, ?_, rfl, ?_⟩
      · intro hlen
        rw [getD_set_self hlen]
      · exact assocLookup_eraseKey_self
      · intro hmem
        exact (mem_rPin.mp hmem).2 rfl

/-- Witness for C6: deleting a never-resident page records the deallocation
and succeeds with no pool change; deleting a pinned page fails but still
records the deallocation; deleting an unpinned resident page frees frame 0
and drops its mapping. -/
theorem claim_C6_witness :
    (deletePage (initState 1 true) 7).2.disk.deallocated =
      7 :: (initState 1 true).disk.deallocated ∧
    (deletePage (initState 1 true) 7).1 = true ∧
    (deletePage (applyOp (initState 1 true) Op.newp) 0).1 = false ∧
    (deletePage (applyOp (applyOp (initState 1 true) Op.newp) (Op.unpin 0 false)) 0).1 =
      true ∧
    (deletePage (applyOp (applyOp (initState 1 true) Op.newp)
      (Op.unpin 0 false)) 0).2.free_list =
      0 :: (applyOp (applyOp (initState 1 true) Op.newp) (Op.unpin 0 false)).free_list ∧
    0 ∉ (deletePage (applyOp (applyOp (initState 1 true) Op.newp)
      (Op.unpin 0 false)) 0).2.replacer := by
  refine ⟨(claim_C6 (initState 1 true) 7).1,
    ((claim_C6 (initState 1 true) 7).2.1 (by decide)).1,
    (((claim_C6 (applyOp (initState 1 true) Op.newp) 0).2.2 0 (by decide)).1 (by decide)).1,
    ?_, ?_, ?_⟩
  · exact (((claim_C6 (applyOp (applyOp (initState 1 true) Op.newp) (Op.unpin 0 false))
      0).2.2 0 (by decide)).2 (by decide)).1
  · exact (((claim_C6 (applyOp (applyOp (initState 1 true) Op.newp) (Op.unpin 0 false))
      0).2.2 0 (by decide)).2 (by decide)).2.2.2.1
  · exact (((claim_C6 (applyOp (applyOp (initState 1 true) Op.newp) (Op.unpin 0 false))
      0).2.2 0 (by decide)).2 (by decide)).2.2.2.2
